import Mathlib

/-!
Verification development for the reshape/indexing engine of pyUSID's
`io/hdf_utils.py`.

The embedding models numpy `ndarray`s as a shape (list of axis sizes)
plus a flat C-order (row-major) data buffer, and 2-D ancillary index
matrices as rectangular `List (List Nat)` row matrices.  HDF5-backed
branches of the source accept plain numpy arrays as well; the claims
below all exercise the numpy-array code paths, which are embedded
faithfully.  Failures that CPython raises (TypeError / ValueError /
IndexError / KeyError) are modelled with `Except String`.
-/

instance {ε α : Type} [DecidableEq ε] [DecidableEq α] : DecidableEq (Except ε α)
  | .error e, .error f => if h : e = f then .isTrue (by rw [h]) else .isFalse (by simp [h])
  | .error _, .ok _ => .isFalse (by simp)
  | .ok _, .error _ => .isFalse (by simp)
  | .ok a, .ok b => if h : a = b then .isTrue (by rw [h]) else .isFalse (by simp [h])

/-- A numpy ndarray: list of axis sizes plus the flat C-order buffer.
A well-formed array satisfies `data.length = shape.prod`; this is carried
as a hypothesis where needed. -/
structure NDArray (α : Type) where
  shape : List Nat
  data : List α
deriving Repr, DecidableEq

/-- Row-major (C-order) flat offset of a multi-index, as numpy lays data out:
`offset = i0 * prod(rest) + offset(rest)`. -/
def encodeIdx : List Nat → List Nat → Nat
  | _ :: srest, i :: irest => i * srest.prod + encodeIdx srest irest
  | _, _ => 0

/-- Inverse of `encodeIdx`: recover the multi-index of a flat C-order offset. -/
def decodeIdx : List Nat → Nat → List Nat
  | [], _ => []
  | _ :: srest, j => j / srest.prod :: decodeIdx srest (j % srest.prod)

/-- `tupleAt a i` is python `a.shape[i]`; raises IndexError when out of range. -/
def shapeAt (a : NDArray α) (i : Nat) : Except String Nat :=
  if i < a.shape.length then .ok (a.shape.getD i 0) else .error "IndexError: tuple index out of range"

/-- numpy fancy indexing `xs[axes]` (also used for `labels[sort]`). -/
def applyPerm [Inhabited α] (axes : List Nat) (xs : List α) : List α :=
  axes.map (fun i => xs.getD i default)

/-- Old multi-index from a new (transposed) multi-index: axis `axes[i]` of the
old array becomes axis `i` of the new one, so `old[p] = new[axes.indexOf p]`. -/
def invApply (axes idx : List Nat) : List Nat :=
  (List.range axes.length).map (fun p => idx.getD (axes.indexOf p) 0)

/-- `a.transpose(axes)`: permute the axes.  numpy raises when `axes` is not a
permutation of the axis numbers.  The returned buffer is re-enumerated in the
new C-order, which is exactly what materialising the numpy view yields. -/
def npTranspose [Inhabited α] (axes : List Nat) (a : NDArray α) : Except String (NDArray α) :=
  if axes.length = a.shape.length ∧ axes.Nodup ∧ (∀ x ∈ axes, x < a.shape.length) then
    let newshape := applyPerm axes a.shape
    .ok ⟨newshape, (List.range newshape.prod).map
      (fun j => a.data.getD (encodeIdx a.shape (invApply axes (decodeIdx newshape j))) default)⟩
  else .error "axes dont match array"

/-- `a.reshape(newshape)`: C-order reshape keeps the flat buffer and succeeds
exactly when the element counts agree (else numpy raises ValueError). -/
def npReshape (newshape : List Nat) (a : NDArray α) : Except String (NDArray α) :=
  if newshape.prod = a.shape.prod then .ok ⟨newshape, a.data⟩
  else .error "ValueError: cannot reshape array"

/-- `a.reshape(dims + [-1])`: numpy infers the trailing axis; succeeds exactly
when `prod dims` is a nonzero divisor of the total size. -/
def npReshapeInferLast (dims : List Nat) (a : NDArray α) : Except String (NDArray α) :=
  if dims.prod ≠ 0 ∧ dims.prod ∣ a.shape.prod then
    .ok ⟨dims ++ [a.shape.prod / dims.prod], a.data⟩
  else .error "ValueError: cannot reshape array"

/-! ### 2-D matrices (ancillary index matrices) -/

/-- Ancillary index matrices: rows of unsigned integers. -/
abbrev Mat := List (List Nat)

def nrows (m : List (List α)) : Nat := m.length

def ncols (m : List (List α)) : Nat := (m.headD []).length

/-- A rectangular row matrix: every row has the common column count. -/
def Rect (m : List (List α)) : Prop := ∀ row ∈ m, row.length = ncols m

/-- numpy `.size` of a 2-D array. -/
def matSize (m : List (List α)) : Nat := nrows m * ncols m

/-- numpy 2-D transpose, written with explicit indexing so it is total. -/
def transposeM [Inhabited α] (m : List (List α)) : List (List α) :=
  (List.range (ncols m)).map (fun j => m.map (fun row => row.getD j default))

/-! ### get_sort_order (hdf_utils.py lines 914-940) -/

/-- Transition count of one row, `len(np.where([row[i] != row[i - 1] for i in
range(len(row))])[0])`.  Python's `row[-1]` at `i = 0` is the LAST element, so
the count is cyclic: it includes the wrap-around comparison of the first
element against the last one. -/
def cyclicChanges (row : List Nat) : Nat :=
  ((List.range row.length).filter
    (fun i => decide (row.getD i 0 ≠ row.getD ((i + row.length - 1) % row.length) 0))).length

/-- Stable insertion step: place `i` after every already-sorted index whose key
is strictly smaller. -/
def insertByKey (keys : List Nat) (i : Nat) : List Nat → List Nat
  | [] => [i]
  | j :: rest => if keys.getD j 0 < keys.getD i 0 then j :: insertByKey keys i rest
                 else i :: j :: rest

def isortByKey (keys : List Nat) : List Nat → List Nat
  | [] => []
  | i :: rest => insertByKey keys i (isortByKey keys rest)

/-- `np.argsort(keys)` modelled as the stable ascending argsort: the unique
permutation sorted by the (key, original index) lexicographic order, which this
insertion sort produces.  numpy's default sort (introsort) runs exactly this
stable insertion sort on arrays of at most 16 entries, its small-array cutoff;
on longer arrays its quicksort partitioning can reorder equal keys, so the
model's tie order is faithful only up to 16 keys and any theorem about tie
order is stated on that domain. -/
def argsortAsc (keys : List Nat) : List Nat := isortByKey keys (List.range keys.length)

/-- `get_sort_order(ds_spec)`: orientation heuristic, then the row indices
sorted from fastest changing to slowest (`np.argsort(change_count)[::-1]`). -/
def get_sort_order (ds_spec : Mat) : List Nat :=
  let m := if nrows ds_spec > ncols ds_spec then transposeM ds_spec else ds_spec
  (argsortAsc (m.map cyclicChanges)).reverse

/-! ### get_dimensionality (hdf_utils.py lines 870-911) -/

/-- Modelled from the spec: `contains_integers` lives in `dtype_utils.py`,
which is not under src/.  Per the spec it "validates `order` is a true
permutation of row indices": the call with `min_val=0` accepts any non-empty
collection of integers that are at least 0.  Entries here are naturals, so
only non-emptiness is informative. -/
def contains_integers (xs : List Nat) : Bool := !xs.isEmpty

/-- `len(np.unique(row))`: number of distinct values in a row. -/
def uniqueCount (row : List Nat) : Nat := row.dedup.length

/-- `set(np.arange(n)) == set(index_sort)`. -/
def setEqRange (s : List Nat) (n : Nat) : Prop :=
  (∀ i, i < n → i ∈ s) ∧ (∀ x ∈ s, x < n)

instance (s : List Nat) (n : Nat) : Decidable (setEqRange s n) := by
  unfold setEqRange; exact instDecidableAnd

/-- `get_dimensionality(ds_index, index_sort)`: orientation heuristic, then the
validation chain on `index_sort`, then the per-row distinct-value counts
reordered by fancy indexing `matrix[index_sort]` (which repeats rows when
`index_sort` has duplicates).  The `index_sort.ndim != 1` check is made true
by the 1-D list type. -/
def get_dimensionality (ds_index : Mat) (index_sort : Option (List Nat)) :
    Except String (List Nat) :=
  let m := if nrows ds_index > ncols ds_index then transposeM ds_index else ds_index
  match index_sort with
  | none => .ok (m.map uniqueCount)
  | some s =>
    if ¬ contains_integers s then .error "index_sort should contain integers > 0"
    else if s.dedup.length > m.length then
      .error "length of index_sort should be smaller than number of dimensions"
    else if ¬ setEqRange s m.length then
      .error "Sort order of dimensions not matching with number of dimensions"
    else .ok (s.map (fun i => uniqueCount (m.getD i [])))

example : get_sort_order [[0, 1, 0, 1], [0, 0, 1, 1]] = [0, 1] := by decide

example : get_sort_order [[0, 1], [0, 1]] = [1, 0] := by decide

example : get_dimensionality [[0, 1, 2], [0, 0, 1]] (some [0, 0, 1]) = .ok [3, 3, 2] := by decide

example : get_dimensionality [[0, 1, 2], [0, 0, 1]] (some [0, 0]) ≠ .ok [3, 3] := by decide

/-! ### reshape_to_n_dims (hdf_utils.py lines 449-687)

Embedded on the numpy-array branch: `h5_main` a numpy array and both
ancillaries supplied as numpy 2-D index matrices (`np.atleast_2d` is the
identity there), with the defaults `get_labels=False, sort_dims=False,
as_dask_array=False`.  The synthetic labels `'Position Dimension i'` /
`'Spectral Dimension i'` are represented by the constructors of `Label`;
the string formatting is injective so label equality is `Label` equality. -/

inductive Label where
  | position (i : Nat)
  | spectral (i : Nat)
deriving DecidableEq, Repr, Inhabited

/-- The three-valued reshape outcome: `True`, `"Positions"`, `False`. -/
inductive RStatus where
  | full
  | positions
  | failed
deriving DecidableEq, Repr

/-- `reshape_to_n_dims(h5_main, h5_pos, h5_spec)` for numpy-array inputs.
Returns the (possibly reshaped) array together with the success status. -/
def reshape_to_n_dims [Inhabited α] (main : NDArray α) (pos spec : Mat) :
    Except String (NDArray α × RStatus) :=
  (shapeAt main 0).bind fun mainRows =>
  if nrows pos ≠ mainRows then .error "ValueError: the size of h5_pos does not match with h5_main"
  else (shapeAt main 1).bind fun mainCols =>
  if ncols spec ≠ mainCols then .error "ValueError: the size of h5_spec does not match with h5_main"
  else
    let pos_labs : List Label := (List.range (ncols pos)).map .position
    let spec_labs : List Label := (List.range (nrows spec)).map .spectral
    let pos_sort := get_sort_order (transposeM pos)
    let spec_sort := get_sort_order spec
    (get_dimensionality (transposeM pos) (some pos_sort)).bind fun pos_dims =>
    (get_dimensionality spec (some spec_sort)).bind fun spec_dims =>
    match npReshape (pos_dims.reverse ++ spec_dims.reverse) main with
    | .ok nd =>
        let all_labels := (applyPerm pos_sort pos_labs).reverse
            ++ (applyPerm spec_sort spec_labs).reverse
        let swap_axes := (pos_labs ++ spec_labs).map (fun lab => all_labels.indexOf lab)
        (npTranspose swap_axes nd).bind fun nd2 => .ok (nd2, .full)
    | .error _ =>
        match npReshapeInferLast pos_dims.reverse main with
        | .ok nd => .ok (nd, .positions)
        | .error _ => .ok (main, .failed)

/-! ### make_indices_matrix and the ancillary builders -/

def prodBefore (ls : List Nat) (i : Nat) : Nat := (ls.take i).prod

def prodAfter (ls : List Nat) (i : Nat) : Nat := (ls.drop (i + 1)).prod

/-- `np.repeat(xs, P)`: every element repeated `P` times in place. -/
def repeatEach (P : Nat) (xs : List α) : List α := xs.flatMap (List.replicate P)

/-- `np.tile(xs, Q)`: the whole list repeated `Q` times. -/
def tileList (Q : Nat) (xs : List α) : List α := (List.replicate Q xs).flatten

/-- One row of a Cartesian-tiled index matrix: `arange L`, each entry repeated
`P` (the product of the earlier, faster sizes) times, tiled `Q` (the product of
the later, slower sizes) times. -/
def buildRowIdx (P L Q : Nat) : List Nat := tileList Q (repeatEach P (List.range L))

/-- The matching row of the value matrix: the tick values tiled the same way. -/
def buildRowVals (P : Nat) (ticks : List α) (Q : Nat) : List α :=
  tileList Q (repeatEach P ticks)

/-- Modelled from the spec: `make_indices_matrix` lives in `write_utils.py`
(called `anc_build_utils` by the tests), which is not under src/.  Per spec
section 4.1 and the unit tests, it builds the `[k, prod sizes]` Cartesian-tiled
index matrix (dimension 0 cycling every step), transposed for the position
orientation; empty size lists and size-1 entries (other than a lone `[1]`) are
rejected with ValueError. -/
def make_indices_matrix (dims : List Nat) (is_position : Bool) : Except String Mat :=
  if dims = [] ∨ dims.any (· = 0) ∨ (dims.any (· = 1) ∧ dims ≠ [1]) then
    .error "ValueError: dimensions should be integers greater than 1"
  else
    let m := (List.range dims.length).map
      (fun i => buildRowIdx (prodBefore dims i) (dims.getD i 0) (prodAfter dims i))
    .ok (if is_position then transposeM m else m)

/-! ### reshape_from_n_dims (hdf_utils.py lines 690-867) -/

/-- Lines 820-867 of the source: sort the provided (or synthesised) ancillary
matrices, build the axis permutation, transpose and reshape down to 2-D.
`posNone` / `specNone` record which ancillary the caller omitted, since the
omitted side's sort order is reversed (lines 835-838). -/
def reshape_from_n_dims_core [Inhabited α] (data : NDArray α) (dp dsp : Mat)
    (posNone specNone : Bool) : Except String (NDArray α × Bool) :=
  let pos_sort0 := if matSize dp = 1 then [] else get_sort_order (transposeM dp)
  let spec_sort0 := if matSize dsp = 1 then [] else get_sort_order dsp
  let spec_sort := if specNone then spec_sort0.reverse else spec_sort0
  let pos_sort := if posNone then pos_sort0.reverse else pos_sort0
  let swap_axes := pos_sort.reverse ++ spec_sort.reverse.map (· + pos_sort.length)
  (npTranspose swap_axes data).bind fun d2 =>
  match npReshape [nrows dp, ncols dsp] d2 with
  | .ok r => .ok (r, true)
  | .error _ => .error "ValueError: could not reshape dataset to full N-dimensional form"

/-- `reshape_from_n_dims(data_n_dim, h5_pos, h5_spec)` for numpy-array inputs. -/
def reshape_from_n_dims [Inhabited α] (data : NDArray α) (h5_pos h5_spec : Option Mat) :
    Except String (NDArray α × Bool) :=
  if h5_pos = none ∧ h5_spec = none then
    .error "ValueError: at least one of h5_pos or h5_spec must be specified"
  else if data.shape.length < 2 then .ok (data, true)
  else
    match h5_pos, h5_spec with
    | some dp, none =>
        (get_dimensionality dp (some (get_sort_order dp))).bind fun pos_dims =>
        if ¬ (∀ x ∈ pos_dims, x ∈ data.shape) then
          .error "ValueError: dimension sizes in pos_dims do not exist in data_n_dim shape"
        else
          (make_indices_matrix (data.shape.drop pos_dims.length) false).bind fun dsp =>
          reshape_from_n_dims_core data dp dsp false true
    | none, some dsp =>
        (get_dimensionality dsp (some (get_sort_order dsp))).bind fun spec_dims =>
        if ¬ (∀ x ∈ spec_dims, x ∈ data.shape) then
          .error "ValueError: dimension sizes in spec_dims do not exist in data_n_dim shape"
        else
          (make_indices_matrix (data.shape.take (data.shape.length - spec_dims.length))
              true).bind fun dp =>
          reshape_from_n_dims_core data dp dsp true false
    | some dp, some dsp =>
        if nrows dp * ncols dsp ≠ data.shape.prod then
          .error "ValueError: the product of the number of positions and spectroscopic observations is not equal to the product of the data shape"
        else if ncols dp + nrows dsp ≠ data.shape.length
            ∧ ¬ (matSize dp = 1 ∨ matSize dsp = 1) then
          .error "ValueError: the number of position and spectroscopic dimensions do not match with the dimensionality of the N-dimensional dataset"
        else reshape_from_n_dims_core data dp dsp false false
    | none, none => .error "ValueError: at least one of h5_pos or h5_spec must be specified"

/-- `to_nd` then `to_2d` with the same ancillary matrices (spec section 8's
round-trip property). -/
def roundTrip [Inhabited α] (main : NDArray α) (pos spec : Mat) :
    Except String (NDArray α × Bool) :=
  (reshape_to_n_dims main pos spec).bind fun r =>
  reshape_from_n_dims r.1 (some pos) (some spec)

example :
    reshape_to_n_dims (⟨[1, 2], [10, 20]⟩ : NDArray Nat) [[0]] [[0, 1]]
      = .ok (⟨[1, 2], [10, 20]⟩, .full) := by decide

example :
    roundTrip (⟨[1, 2], [10, 20]⟩ : NDArray Nat) [[0]] [[0, 1]]
      = .error "axes dont match array" := by decide

example :
    roundTrip (⟨[2, 6], [0, 1, 2, 3, 4, 5, 6, 7, 8, 9, 10, 11]⟩ : NDArray Nat)
      [[0], [1]] [[0, 1, 0, 1, 0, 1], [0, 0, 1, 1, 2, 2]]
      = .ok (⟨[2, 6], [0, 1, 2, 3, 4, 5, 6, 7, 8, 9, 10, 11]⟩, true) := by decide

/-! ### Basic lemmas: multi-index encoding -/

theorem decodeIdx_length (shape : List Nat) (j : Nat) :
    (decodeIdx shape j).length = shape.length := by
  induction shape generalizing j with
  | nil => rfl
  | cons s rest ih => simp [decodeIdx, ih]

theorem encodeIdx_decodeIdx (shape : List Nat) (j : Nat) (h : j < shape.prod) :
    encodeIdx shape (decodeIdx shape j) = j := by
  induction shape generalizing j with
  | nil =>
    have : j = 0 := Nat.lt_one_iff.mp (by simpa using h)
    simp [decodeIdx, encodeIdx, this]
  | cons s rest ih =>
    have hP : 0 < rest.prod := by
      rcases Nat.eq_zero_or_pos rest.prod with h0 | h0
      · simp [List.prod_cons, h0] at h
      · exact h0
    have hmod : j % rest.prod < rest.prod := Nat.mod_lt _ hP
    simp only [decodeIdx, encodeIdx]
    rw [ih _ hmod]
    exact Nat.div_add_mod' j rest.prod

theorem decodeIdx_forall₂ (shape : List Nat) (j : Nat) (h : j < shape.prod) :
    List.Forall₂ (· < ·) (decodeIdx shape j) shape := by
  induction shape generalizing j with
  | nil => exact List.Forall₂.nil
  | cons s rest ih =>
    have hP : 0 < rest.prod := by
      rcases Nat.eq_zero_or_pos rest.prod with h0 | h0
      · simp [List.prod_cons, h0] at h
      · exact h0
    refine List.Forall₂.cons ?_ (ih _ (Nat.mod_lt _ hP))
    have hj : j < s * rest.prod := by simpa [List.prod_cons] using h
    exact Nat.div_lt_of_lt_mul (by rw [Nat.mul_comm rest.prod s]; omega)

theorem encodeIdx_lt (shape idx : List Nat) (h : List.Forall₂ (· < ·) idx shape) :
    encodeIdx shape idx < shape.prod := by
  induction h with
  | nil => simp [encodeIdx]
  | @cons i s irest srest hi _ ih =>
    simp only [encodeIdx, List.prod_cons]
    calc i * srest.prod + encodeIdx srest irest < i * srest.prod + srest.prod := by omega
    _ = (i + 1) * srest.prod := by ring
    _ ≤ s * srest.prod := Nat.mul_le_mul_right _ (by omega)

theorem decodeIdx_encodeIdx (shape idx : List Nat) (h : List.Forall₂ (· < ·) idx shape) :
    decodeIdx shape (encodeIdx shape idx) = idx := by
  induction h with
  | nil => rfl
  | @cons i s irest srest hi htail ih =>
    have he : encodeIdx srest irest < srest.prod := encodeIdx_lt _ _ htail
    have hP : 0 < srest.prod := by omega
    simp only [encodeIdx, decodeIdx]
    rw [Nat.mul_comm i srest.prod, Nat.mul_add_div hP, Nat.mul_add_mod,
      Nat.div_eq_of_lt he, Nat.mod_eq_of_lt he, Nat.add_zero, ih]

/-! ### Permutation application lemmas -/

theorem forall₂_lt_iff_getD {idx shape : List Nat} :
    List.Forall₂ (· < ·) idx shape ↔
      idx.length = shape.length ∧ ∀ k, k < shape.length → idx.getD k 0 < shape.getD k 0 := by
  rw [List.forall₂_iff_get]
  constructor
  · rintro ⟨hl, hg⟩
    refine ⟨hl, fun k hk => ?_⟩
    have hk1 : k < idx.length := hl ▸ hk
    rw [List.getD_eq_getElem idx 0 hk1, List.getD_eq_getElem shape 0 hk]
    exact hg k hk1 hk
  · rintro ⟨hl, hg⟩
    refine ⟨hl, fun i h₁ h₂ => ?_⟩
    have := hg i h₂
    rwa [List.getD_eq_getElem idx 0 h₁, List.getD_eq_getElem shape 0 h₂] at this

theorem applyPerm_length [Inhabited α] (axes : List Nat) (xs : List α) :
    (applyPerm axes xs).length = axes.length := List.length_map _ _

theorem applyPerm_getD [Inhabited α] (axes : List Nat) (xs : List α) (k : Nat)
    (hk : k < axes.length) :
    (applyPerm axes xs).getD k default = xs.getD (axes.getD k 0) default := by
  unfold applyPerm
  rw [List.getD_eq_getElem _ default (by simpa using hk), List.getElem_map,
    List.getD_eq_getElem axes 0 hk]

theorem applyPerm_getD₀ (axes xs : List Nat) (k : Nat) (hk : k < axes.length) :
    (applyPerm axes xs).getD k 0 = xs.getD (axes.getD k 0) 0 :=
  applyPerm_getD axes xs k hk

theorem invApply_length (axes idx : List Nat) :
    (invApply axes idx).length = axes.length := by simp [invApply]

theorem invApply_getD (axes idx : List Nat) (q : Nat) (hq : q < axes.length) :
    (invApply axes idx).getD q 0 = idx.getD (axes.indexOf q) 0 := by
  unfold invApply
  rw [List.getD_eq_getElem _ 0 (by simpa using hq), List.getElem_map, List.getElem_range]

/-- Facts about a list that is a permutation of `range n`. -/
theorem permRange_facts {axes : List Nat} {n : Nat} (h : List.Perm axes (List.range n)) :
    axes.length = n ∧ axes.Nodup ∧ ∀ x, x ∈ axes ↔ x < n := by
  refine ⟨by simpa using h.length_eq, h.nodup_iff.mpr (List.nodup_range n), fun x => ?_⟩
  rw [h.mem_iff, List.mem_range]

theorem indexOf_of_getD {axes : List Nat} (hnd : axes.Nodup) {m v : Nat}
    (hm : m < axes.length) (hv : axes.getD m 0 = v) : axes.indexOf v = m := by
  have : axes[m] = v := by rwa [List.getD_eq_getElem axes 0 hm] at hv
  rw [← this]
  exact List.indexOf_getElem hnd m hm

theorem natDefault : (default : Nat) = 0 := rfl

theorem getD_map_range {β : Type} (f : Nat → β) (m k : Nat) (d : β) (hk : k < m) :
    ((List.range m).map f).getD k d = f k := by
  rw [List.getD_eq_getElem _ d (by simpa using hk), List.getElem_map, List.getElem_range]

theorem listEq_of_getD {α : Type} {d : α} {l₁ l₂ : List α} (hl : l₁.length = l₂.length)
    (h : ∀ k, k < l₂.length → l₁.getD k d = l₂.getD k d) : l₁ = l₂ := by
  apply List.ext_getElem hl
  intro k h₁ h₂
  have := h k h₂
  rwa [List.getD_eq_getElem l₁ d h₁, List.getD_eq_getElem l₂ d h₂] at this

theorem permRange_getD_lt {axes : List Nat} {n : Nat} (h : List.Perm axes (List.range n))
    (k : Nat) (hk : k < n) : axes.getD k 0 < n := by
  obtain ⟨hlen, _, hmem⟩ := permRange_facts h
  have hk' : k < axes.length := hlen ▸ hk
  rw [List.getD_eq_getElem axes 0 hk']
  exact (hmem _).mp (List.getElem_mem hk')

theorem invApply_invApply (axes1 axes2 idx : List Nat) {n : Nat}
    (h1 : List.Perm axes1 (List.range n)) (h2 : List.Perm axes2 (List.range n))
    (hidx : idx.length = n)
    (hcomp : ∀ i, i < n → axes1.getD (axes2.getD i 0) 0 = i) :
    invApply axes1 (invApply axes2 idx) = idx := by
  obtain ⟨hlen1, hnd1, _⟩ := permRange_facts h1
  obtain ⟨hlen2, hnd2, _⟩ := permRange_facts h2
  refine listEq_of_getD (d := 0) (by rw [invApply_length, hlen1, hidx]) (fun q hq => ?_)
  have hqn : q < n := hidx ▸ hq
  have hm : axes2.getD q 0 < n := permRange_getD_lt h2 q hqn
  have hio1 : axes1.indexOf q = axes2.getD q 0 :=
    indexOf_of_getD hnd1 (hlen1 ▸ hm) (hcomp q hqn)
  have hio2 : axes2.indexOf (axes2.getD q 0) = q :=
    indexOf_of_getD hnd2 (hlen2 ▸ hqn) rfl
  rw [invApply_getD _ _ q (hlen1 ▸ hqn), hio1,
    invApply_getD _ _ _ (hlen2 ▸ hm), hio2]

theorem npTranspose_ok_of_perm [Inhabited α] (axes : List Nat) (a : NDArray α) {n : Nat}
    (hn : a.shape.length = n) (hax : List.Perm axes (List.range n)) :
    npTranspose axes a = .ok ⟨applyPerm axes a.shape,
      (List.range (applyPerm axes a.shape).prod).map
        (fun j => a.data.getD
          (encodeIdx a.shape (invApply axes (decodeIdx (applyPerm axes a.shape) j)))
          default)⟩ := by
  obtain ⟨hlen, hnd, hmem⟩ := permRange_facts hax
  unfold npTranspose
  rw [if_pos ⟨by omega, hnd, fun x hx => by rw [hn]; exact (hmem x).mp hx⟩]

/-- Transposing by `axes1` and then by `axes2` is the identity when the
composite `axes1 ∘ axes2` is: numpy's `a.transpose(p).transpose(q)` restores
`a` whenever `p[q[i]] = i` for every axis `i`. -/
theorem npTranspose_cancel [Inhabited α] (a : NDArray α) (axes1 axes2 : List Nat) {n : Nat}
    (hn : a.shape.length = n) (hwf : a.data.length = a.shape.prod)
    (h1 : List.Perm axes1 (List.range n)) (h2 : List.Perm axes2 (List.range n))
    (hcomp : ∀ i, i < n → axes1.getD (axes2.getD i 0) 0 = i) :
    (npTranspose axes1 a).bind (npTranspose axes2) = .ok a := by
  obtain ⟨hlen1, hnd1, hmem1⟩ := permRange_facts h1
  obtain ⟨hlen2, hnd2, hmem2⟩ := permRange_facts h2
  rw [npTranspose_ok_of_perm axes1 a hn h1]
  set shape1 := applyPerm axes1 a.shape with hshape1
  set data1 := (List.range shape1.prod).map
      (fun j => a.data.getD (encodeIdx a.shape (invApply axes1 (decodeIdx shape1 j))) default)
    with hdata1
  have hsh1len : shape1.length = n := by rw [hshape1, applyPerm_length, hlen1]
  show (npTranspose axes2 ⟨shape1, data1⟩) = .ok a
  rw [npTranspose_ok_of_perm axes2 ⟨shape1, data1⟩ hsh1len h2]
  have hshape2 : applyPerm axes2 shape1 = a.shape := by
    refine listEq_of_getD (d := default)
      (by rw [applyPerm_length, hlen2, hn]) (fun k hk => ?_)
    have hkn : k < n := hn ▸ hk
    have hmk : axes2.getD k 0 < n := permRange_getD_lt h2 k hkn
    rw [applyPerm_getD _ _ k (hlen2 ▸ hkn), hshape1,
      applyPerm_getD _ _ _ (hlen1 ▸ hmk), hcomp k hkn]
  have hdataeq : (List.range (applyPerm axes2 shape1).prod).map
      (fun j => data1.getD
        (encodeIdx shape1 (invApply axes2 (decodeIdx (applyPerm axes2 shape1) j)))
        default) = a.data := by
    rw [hshape2]
    refine listEq_of_getD (d := default) (by simpa using hwf.symm) (fun j hj => ?_)
    have hjp : j < a.shape.prod := hwf ▸ hj
    rw [getD_map_range _ _ _ _ hjp]
    have hdec : List.Forall₂ (· < ·) (decodeIdx a.shape j) a.shape := decodeIdx_forall₂ _ _ hjp
    set idx := decodeIdx a.shape j with hidx
    have hidxlen : idx.length = n := by rw [hidx, decodeIdx_length, hn]
    have hidx1 : List.Forall₂ (· < ·) (invApply axes2 idx) shape1 := by
      rw [forall₂_lt_iff_getD]
      refine ⟨by rw [invApply_length, hlen2, hsh1len], fun q hq => ?_⟩
      have hqn : q < n := hsh1len ▸ hq
      have hmq : axes2.getD q 0 < n := permRange_getD_lt h2 q hqn
      have hio : axes2.indexOf q = axes2.getD q 0 →  True := fun _ => trivial
      have hr : axes2.indexOf q < n := by
        rw [← hlen2]
        exact List.indexOf_lt_length.mpr ((hmem2 q).mpr hqn)
      have hax2r : axes2.getD (axes2.indexOf q) 0 = q := by
        rw [List.getD_eq_getElem axes2 0 (hlen2 ▸ hr)]
        exact List.getElem_indexOf (List.indexOf_lt_length.mpr ((hmem2 q).mpr hqn))
      have hcompr : axes1.getD q 0 = axes2.indexOf q := by
        have := hcomp (axes2.indexOf q) hr
        rw [hax2r] at this
        exact this
      have hlt : idx.getD (axes2.indexOf q) 0 < a.shape.getD (axes2.indexOf q) 0 :=
        (forall₂_lt_iff_getD.mp hdec).2 _ (hn ▸ hr)
      rw [invApply_getD _ _ q (hlen2 ▸ hqn), hshape1,
        applyPerm_getD₀ _ _ q (hlen1 ▸ hqn), hcompr]
      exact hlt
    have hklt : encodeIdx shape1 (invApply axes2 idx) < shape1.prod :=
      encodeIdx_lt _ _ hidx1
    rw [hdata1, getD_map_range _ _ _ _ hklt, decodeIdx_encodeIdx _ _ hidx1,
      invApply_invApply axes1 axes2 idx h1 h2 hidxlen hcomp,
      encodeIdx_decodeIdx _ _ hjp]
  rw [hdataeq, hshape2]

/-! ### argsort lemmas -/

/-- Strict lexicographic order on (key, original index): what a stable
ascending argsort realises. -/
def lexLt (keys : List Nat) (a b : Nat) : Prop :=
  keys.getD a 0 < keys.getD b 0 ∨ (keys.getD a 0 = keys.getD b 0 ∧ a < b)

theorem insertByKey_perm (keys : List Nat) (i : Nat) (l : List Nat) :
    List.Perm (insertByKey keys i l) (i :: l) := by
  induction l with
  | nil => exact List.Perm.refl _
  | cons j rest ih =>
    unfold insertByKey
    by_cases h : keys.getD j 0 < keys.getD i 0
    · rw [if_pos h]
      exact ((ih.cons j).trans (List.Perm.swap i j rest)).symm.symm
    · rw [if_neg h]

theorem isortByKey_perm (keys : List Nat) (l : List Nat) :
    List.Perm (isortByKey keys l) l := by
  induction l with
  | nil => exact List.Perm.refl _
  | cons i rest ih =>
    exact (insertByKey_perm keys i _).trans (ih.cons i)

theorem insertByKey_pairwise (keys : List Nat) (i : Nat) (l : List Nat)
    (hp : l.Pairwise (lexLt keys)) (hgt : ∀ j ∈ l, i < j) :
    (insertByKey keys i l).Pairwise (lexLt keys) := by
  induction l with
  | nil => simp [insertByKey, List.pairwise_singleton]
  | cons j rest ih =>
    rw [List.pairwise_cons] at hp
    obtain ⟨hjall, hrest⟩ := hp
    unfold insertByKey
    by_cases h : keys.getD j 0 < keys.getD i 0
    · rw [if_pos h]
      rw [List.pairwise_cons]
      refine ⟨fun b hb => ?_, ih hrest (fun x hx => hgt x (List.mem_cons_of_mem _ hx))⟩
      rcases List.mem_cons.mp ((insertByKey_perm keys i rest).mem_iff.mp hb) with hbi | hbr
      · subst hbi; exact Or.inl h
      · exact hjall b hbr
    · rw [if_neg h]
      rw [List.pairwise_cons]
      have hij : keys.getD i 0 ≤ keys.getD j 0 := Nat.le_of_not_lt h
      constructor
      · intro b hb
        rcases List.mem_cons.mp hb with hbj | hbr
        · subst hbj
          rcases Nat.lt_or_ge (keys.getD i 0) (keys.getD b 0) with hl | hg
          · exact Or.inl hl
          · exact Or.inr ⟨Nat.le_antisymm hij hg, hgt b (List.mem_cons_self _ _)⟩
        · have hjb := hjall b hbr
          rcases Nat.lt_or_ge (keys.getD i 0) (keys.getD b 0) with hl2 | hg2
          · exact Or.inl hl2
          · have hjble : keys.getD j 0 ≤ keys.getD b 0 := by
              rcases hjb with hl | ⟨he, _⟩
              · exact Nat.le_of_lt hl
              · exact Nat.le_of_eq he
            exact Or.inr ⟨Nat.le_antisymm (Nat.le_trans hij hjble) hg2,
              hgt b (List.mem_cons_of_mem _ hbr)⟩
      · exact List.pairwise_cons.mpr ⟨hjall, hrest⟩

theorem isortByKey_pairwise (keys : List Nat) (l : List Nat)
    (hl : l.Pairwise (· < ·)) : (isortByKey keys l).Pairwise (lexLt keys) := by
  induction l with
  | nil => exact List.Pairwise.nil
  | cons i rest ih =>
    rw [List.pairwise_cons] at hl
    obtain ⟨hstep, hrest⟩ := hl
    refine insertByKey_pairwise keys i _ (ih hrest) (fun j hj => ?_)
    exact hstep j ((isortByKey_perm keys rest).mem_iff.mp hj)

theorem argsortAsc_perm (keys : List Nat) :
    List.Perm (argsortAsc keys) (List.range keys.length) :=
  isortByKey_perm keys _

theorem argsortAsc_pairwise (keys : List Nat) :
    (argsortAsc keys).Pairwise (lexLt keys) :=
  isortByKey_pairwise keys _ (List.pairwise_lt_range _)

theorem get_sort_order_perm (m : Mat) (h : ¬ nrows m > ncols m) :
    List.Perm (get_sort_order m) (List.range (nrows m)) := by
  unfold get_sort_order
  rw [if_neg h]
  have hp := argsortAsc_perm (m.map cyclicChanges)
  rw [List.length_map] at hp
  exact (List.reverse_perm _).trans hp

theorem get_sort_order_pairwise (m : Mat) (h : ¬ nrows m > ncols m) :
    (get_sort_order m).Pairwise (fun a b => lexLt (m.map cyclicChanges) b a) := by
  unfold get_sort_order
  rw [if_neg h]
  exact (List.pairwise_reverse).mpr (argsortAsc_pairwise _)

/-! ### Claim C2: get_sort_order -/

/-- Transition count as the spec's words describe it: transitions between
ADJACENT steps only (no wrap-around comparison of the first element against
the last). -/
def adjacentChanges (row : List Nat) : Nat :=
  ((List.range row.length).filter
    (fun i => decide (1 ≤ i ∧ row.getD i 0 ≠ row.getD (i - 1) 0))).length

def insertByKeyDesc (keys : List Nat) (i : Nat) : List Nat → List Nat
  | [] => [i]
  | j :: rest => if keys.getD i 0 < keys.getD j 0 then j :: insertByKeyDesc keys i rest
                 else i :: j :: rest

def isortByKeyDesc (keys : List Nat) : List Nat → List Nat
  | [] => []
  | i :: rest => insertByKeyDesc keys i (isortByKeyDesc keys rest)

/-- The sort order as the spec's words describe it (stated only to compare
with `get_sort_order`): row indices sorted descending by adjacent-step
transition count, rows with equal counts kept in their original relative
order (stable sort). -/
def specSortOrderDesc (m : Mat) : List Nat :=
  isortByKeyDesc (m.map adjacentChanges) (List.range m.length)

/-- C2 counterexample: on `[[0,1,0,1,0,0],[0,0,1,1,0,1]]` the adjacent-step
transition counts are 4 and 3, so the spec's descending stable sort gives
`[0, 1]`; the code counts cyclically (4 and 4, a tie), and its
`np.argsort(...)[::-1]` — two keys, well inside numpy's stable small-array
insertion-sort regime — leaves the tied rows in reversed original order,
returning `[1, 0]`. -/
theorem c2_counterexample :
    get_sort_order [[0, 1, 0, 1, 0, 0], [0, 0, 1, 1, 0, 1]] = [1, 0] ∧
    specSortOrderDesc [[0, 1, 0, 1, 0, 0], [0, 0, 1, 1, 0, 1]] = [0, 1] := by decide

theorem getD_map_row {β : Type} (f : List Nat → β) (d : β) (m : Mat) (r : Nat)
    (hr : r < m.length) : (m.map f).getD r d = f (m.getD r []) := by
  rw [List.getD_eq_getElem _ d (by simpa using hr), List.getElem_map,
    List.getD_eq_getElem m [] hr]

/-- C2 (amended): for a matrix already in spectroscopic orientation (rows not
exceeding columns) with at most 16 dimension rows — so the `np.argsort` inside
`get_sort_order` runs numpy's stable small-array insertion sort, the regime the
model is faithful on — `get_sort_order` returns a permutation of the row
indices sorted descending by the CYCLIC transition count (adjacent steps plus
the wrap-around step from the last entry to the first), and rows with equal
counts appear in REVERSED original order.  Beyond 16 rows numpy's quicksort
partitioning is unstable and the tie order is unspecified. -/
theorem c2_sort_order_cyclic_desc (m : Mat) (h : nrows m ≤ ncols m)
    (hn : nrows m ≤ 16) :
    List.Perm (get_sort_order m) (List.range (nrows m)) ∧
    (get_sort_order m).Pairwise (fun a b =>
      cyclicChanges (m.getD b []) < cyclicChanges (m.getD a []) ∨
      (cyclicChanges (m.getD a []) = cyclicChanges (m.getD b []) ∧ b < a)) := by
  have h' : ¬ nrows m > ncols m := Nat.not_lt.mpr h
  refine ⟨get_sort_order_perm m h', ?_⟩
  have hpw := get_sort_order_pairwise m h'
  have hmem : ∀ x ∈ get_sort_order m, x < m.length :=
    fun x hx => List.mem_range.mp ((get_sort_order_perm m h').mem_iff.mp hx)
  refine hpw.imp_of_mem (fun ha hb hr => ?_)
  have hka := hmem _ ha
  have hkb := hmem _ hb
  unfold lexLt at hr
  rw [getD_map_row cyclicChanges 0 m _ hkb, getD_map_row cyclicChanges 0 m _ hka] at hr
  rcases hr with hlt | ⟨he, hab⟩
  · exact Or.inl hlt
  · exact Or.inr ⟨he.symm, hab⟩

theorem c2_witness :
    (nrows [[0, 1], [0, 1]] ≤ ncols [[0, 1], [0, 1]] ∧ nrows [[0, 1], [0, 1]] ≤ 16) ∧
    (List.Perm (get_sort_order [[0, 1], [0, 1]]) (List.range (nrows [[0, 1], [0, 1]])) ∧
      (get_sort_order [[0, 1], [0, 1]]).Pairwise (fun a b =>
        cyclicChanges ([[0, 1], [0, 1]].getD b []) < cyclicChanges ([[0, 1], [0, 1]].getD a []) ∨
        (cyclicChanges ([[0, 1], [0, 1]].getD a []) = cyclicChanges ([[0, 1], [0, 1]].getD b [])
          ∧ b < a))) :=
  ⟨⟨by decide, by decide⟩,
    c2_sort_order_cyclic_desc [[0, 1], [0, 1]] (by decide) (by decide)⟩

/-! ### Claim C4: get_dimensionality validation -/

/-- C4 counterexample: `[0, 0, 1]` is not a permutation of the row indices
`{0, 1}` of a 2-row matrix (it has a duplicate and the wrong length), yet
`get_dimensionality` accepts it — the code only compares the SETS
`set(np.arange(n)) == set(index_sort)` — and returns the distinct-value counts
with row 0 repeated instead of raising. -/
theorem c4_counterexample :
    get_dimensionality [[0, 1, 2], [0, 0, 1]] (some [0, 0, 1]) = .ok [3, 3, 2] ∧
    ¬ List.Perm [0, 0, 1] (List.range (nrows [[0, 1, 2], [0, 0, 1]])) := by decide

/-- C4 (amended): for a non-empty matrix in spectroscopic orientation,
`get_dimensionality` succeeds exactly when the SET of entries of the supplied
order equals the set of row indices (duplicates and repeated rows are
accepted), and on success returns the per-row distinct-value counts reordered
by fancy indexing with that order. -/
theorem c4_dimensionality_set_check (m : Mat) (s : List Nat)
    (hrow : 1 ≤ nrows m) (hor : nrows m ≤ ncols m) :
    ((∃ l, get_dimensionality m (some s) = .ok l) ↔ setEqRange s (nrows m)) ∧
    (setEqRange s (nrows m) →
      get_dimensionality m (some s) = .ok (s.map (fun i => uniqueCount (m.getD i [])))) := by
  have h' : ¬ nrows m > ncols m := Nat.not_lt.mpr hor
  have heval : get_dimensionality m (some s) =
      (if ¬ contains_integers s then .error "index_sort should contain integers > 0"
      else if s.dedup.length > m.length then
        .error "length of index_sort should be smaller than number of dimensions"
      else if ¬ setEqRange s m.length then
        .error "Sort order of dimensions not matching with number of dimensions"
      else .ok (s.map (fun i => uniqueCount (m.getD i [])))) := by
    unfold get_dimensionality
    rw [if_neg h']
  refine ⟨⟨?_, ?_⟩, ?_⟩
  · rintro ⟨l, hl⟩
    rw [heval] at hl
    by_cases h1 : ¬ contains_integers s
    · rw [if_pos h1] at hl; exact absurd hl (by simp)
    · rw [if_neg h1] at hl
      by_cases h2 : s.dedup.length > m.length
      · rw [if_pos h2] at hl; exact absurd hl (by simp)
      · rw [if_neg h2] at hl
        by_cases h3 : ¬ setEqRange s m.length
        · rw [if_pos h3] at hl; exact absurd hl (by simp)
        · exact not_not.mp h3
  · intro hset
    refine ⟨s.map (fun i => uniqueCount (m.getD i [])), ?_⟩
    have hne : s ≠ [] := by
      intro hnil
      have := hset.1 0 hrow
      simp [hnil] at this
    have h1 : contains_integers s := by
      unfold contains_integers
      simpa using hne
    have h2 : ¬ s.dedup.length > m.length := by
      have hnd := s.nodup_dedup
      have hcard : s.dedup.toFinset.card = s.dedup.length := List.toFinset_card_of_nodup hnd
      have hsub : s.dedup.toFinset ⊆ Finset.range m.length := by
        intro x hx
        rw [List.mem_toFinset, List.mem_dedup] at hx
        rw [Finset.mem_range]
        exact hset.2 x hx
      have := Finset.card_le_card hsub
      rw [hcard, Finset.card_range] at this
      omega
    rw [heval, if_neg (by simpa using h1), if_neg h2, if_neg (by simpa using hset)]
  · intro hset
    have hne : s ≠ [] := by
      intro hnil
      have := hset.1 0 hrow
      simp [hnil] at this
    have h1 : contains_integers s := by
      unfold contains_integers
      simpa using hne
    have h2 : ¬ s.dedup.length > m.length := by
      have hnd := s.nodup_dedup
      have hcard : s.dedup.toFinset.card = s.dedup.length := List.toFinset_card_of_nodup hnd
      have hsub : s.dedup.toFinset ⊆ Finset.range m.length := by
        intro x hx
        rw [List.mem_toFinset, List.mem_dedup] at hx
        rw [Finset.mem_range]
        exact hset.2 x hx
      have := Finset.card_le_card hsub
      rw [hcard, Finset.card_range] at this
      omega
    rw [heval, if_neg (by simpa using h1), if_neg h2, if_neg (by simpa using hset)]

theorem c4_witness :
    (1 ≤ nrows [[0, 1, 2], [0, 0, 1]] ∧ nrows [[0, 1, 2], [0, 0, 1]] ≤ ncols [[0, 1, 2], [0, 0, 1]]) ∧
    (((∃ l, get_dimensionality [[0, 1, 2], [0, 0, 1]] (some [1, 0]) = .ok l) ↔
        setEqRange [1, 0] (nrows [[0, 1, 2], [0, 0, 1]])) ∧
      (setEqRange [1, 0] (nrows [[0, 1, 2], [0, 0, 1]]) →
        get_dimensionality [[0, 1, 2], [0, 0, 1]] (some [1, 0]) =
          .ok ([1, 0].map (fun i => uniqueCount ([[0, 1, 2], [0, 0, 1]].getD i []))))) :=
  ⟨⟨by decide, by decide⟩,
    c4_dimensionality_set_check [[0, 1, 2], [0, 0, 1]] [1, 0] (by decide) (by decide)⟩

/-! ### Pipeline evaluation lemmas for reshape_to_n_dims -/

/-- The internal orientation heuristic shared by `get_sort_order` and
`get_dimensionality`. -/
def orientM (m : Mat) : Mat := if nrows m > ncols m then transposeM m else m

theorem get_sort_order_eq (m : Mat) :
    get_sort_order m = (argsortAsc ((orientM m).map cyclicChanges)).reverse := rfl

/-- The dimension sizes `get_dimensionality` returns for a code-produced sort
order: per-row distinct counts of the oriented matrix, reordered. -/
def sortedDims (m : Mat) : List Nat :=
  (get_sort_order m).map (fun i => uniqueCount ((orientM m).getD i []))

theorem get_sort_order_perm_orient (m : Mat) :
    List.Perm (get_sort_order m) (List.range (nrows (orientM m))) := by
  rw [get_sort_order_eq]
  have hp := argsortAsc_perm ((orientM m).map cyclicChanges)
  rw [List.length_map] at hp
  exact (List.reverse_perm _).trans hp

/-- A sort order produced by `get_sort_order` always passes the validation
chain of `get_dimensionality` (on the same input matrix, whose orientation
heuristic agrees), which then returns `sortedDims`. -/
theorem get_dimensionality_sort_ok (m : Mat) (h1 : 1 ≤ nrows (orientM m)) :
    get_dimensionality m (some (get_sort_order m)) = .ok (sortedDims m) := by
  have hperm := get_sort_order_perm_orient m
  obtain ⟨hlen, hnd, hmem⟩ := permRange_facts hperm
  have heval : get_dimensionality m (some (get_sort_order m)) =
      (if ¬ contains_integers (get_sort_order m) then
        .error "index_sort should contain integers > 0"
      else if (get_sort_order m).dedup.length > (orientM m).length then
        .error "length of index_sort should be smaller than number of dimensions"
      else if ¬ setEqRange (get_sort_order m) (orientM m).length then
        .error "Sort order of dimensions not matching with number of dimensions"
      else .ok ((get_sort_order m).map (fun i => uniqueCount ((orientM m).getD i [])))) := rfl
  have hne : get_sort_order m ≠ [] := by
    intro hnil
    rw [hnil] at hlen
    simp at hlen
    omega
  have h1' : contains_integers (get_sort_order m) := by
    unfold contains_integers
    simpa using hne
  have h2 : ¬ (get_sort_order m).dedup.length > (orientM m).length := by
    rw [hnd.dedup]
    have hx : (get_sort_order m).length = (orientM m).length := hlen
    omega
  have h3 : setEqRange (get_sort_order m) (orientM m).length := by
    exact ⟨fun i hi => (hmem i).mpr hi, fun x hx => (hmem x).mp hx⟩
  rw [heval, if_neg (by simpa using h1'), if_neg h2, if_neg (by simpa using h3)]
  rfl

/-- With matching shapes and non-degenerate ancillaries, `reshape_to_n_dims`
reduces to its reshape-and-transpose tail. -/
theorem except_bind_ok {ε α β : Type} (a : α) (f : α → Except ε β) :
    (Except.ok (ε := ε) a).bind f = f a := rfl

theorem reshape_to_n_dims_eval [Inhabited α] (main : NDArray α) (pos spec : Mat)
    (hm2 : main.shape.length = 2)
    (hrp : nrows pos = main.shape.getD 0 0)
    (hcs : ncols spec = main.shape.getD 1 0)
    (hp1 : 1 ≤ nrows (orientM (transposeM pos)))
    (hs1 : 1 ≤ nrows (orientM spec)) :
    reshape_to_n_dims main pos spec =
      (match npReshape ((sortedDims (transposeM pos)).reverse ++ (sortedDims spec).reverse) main with
      | .ok nd =>
          (npTranspose
            ((((List.range (ncols pos)).map Label.position)
                ++ ((List.range (nrows spec)).map Label.spectral)).map
              (fun lab =>
                ((applyPerm (get_sort_order (transposeM pos))
                    ((List.range (ncols pos)).map Label.position)).reverse
                  ++ (applyPerm (get_sort_order spec)
                    ((List.range (nrows spec)).map Label.spectral)).reverse).indexOf lab))
            nd).bind (fun nd2 => .ok (nd2, RStatus.full))
      | .error _ =>
          match npReshapeInferLast (sortedDims (transposeM pos)).reverse main with
          | .ok nd => .ok (nd, RStatus.positions)
          | .error _ => .ok (main, RStatus.failed)) := by
  have hb0 : shapeAt main 0 = .ok (main.shape.getD 0 0) := by
    unfold shapeAt
    rw [if_pos (by omega : 0 < main.shape.length)]
  have hb1 : shapeAt main 1 = .ok (main.shape.getD 1 0) := by
    unfold shapeAt
    rw [if_pos (by omega : 1 < main.shape.length)]
  unfold reshape_to_n_dims
  rw [hb0, except_bind_ok]
  rw [if_neg (by rw [hrp]; exact fun h => h rfl)]
  rw [hb1, except_bind_ok]
  rw [if_neg (by rw [hcs]; exact fun h => h rfl)]
  dsimp only
  rw [get_dimensionality_sort_ok (transposeM pos) hp1, except_bind_ok]
  rw [get_dimensionality_sort_ok spec hs1, except_bind_ok]

/-- C3: when the flat array fits neither the full position-plus-spectroscopic
shape nor the position-only shape, `reshape_to_n_dims` returns the original
array with status `False`; when only the position-only reshape succeeds it
returns that reshape with status `"Positions"`; neither degraded case raises
(both are `Except.ok`). -/
theorem c3_reshape_fallback [Inhabited α] (main : NDArray α) (pos spec : Mat)
    (hm2 : main.shape.length = 2)
    (hrp : nrows pos = main.shape.getD 0 0)
    (hcs : ncols spec = main.shape.getD 1 0)
    (hp1 : 1 ≤ nrows (orientM (transposeM pos)))
    (hs1 : 1 ≤ nrows (orientM spec))
    (hfull : (sortedDims (transposeM pos)).prod * (sortedDims spec).prod ≠ main.shape.prod) :
    (¬ ((sortedDims (transposeM pos)).prod ≠ 0 ∧
        (sortedDims (transposeM pos)).prod ∣ main.shape.prod) →
      reshape_to_n_dims main pos spec = .ok (main, RStatus.failed)) ∧
    (((sortedDims (transposeM pos)).prod ≠ 0 ∧
        (sortedDims (transposeM pos)).prod ∣ main.shape.prod) →
      reshape_to_n_dims main pos spec =
        .ok (⟨(sortedDims (transposeM pos)).reverse
            ++ [main.shape.prod / (sortedDims (transposeM pos)).reverse.prod],
          main.data⟩, RStatus.positions)) := by
  rw [reshape_to_n_dims_eval main pos spec hm2 hrp hcs hp1 hs1]
  have hfullshape :
      ((sortedDims (transposeM pos)).reverse ++ (sortedDims spec).reverse).prod
        ≠ main.shape.prod := by
    rw [List.prod_append, List.prod_reverse, List.prod_reverse]
    exact hfull
  have hres : npReshape ((sortedDims (transposeM pos)).reverse ++ (sortedDims spec).reverse) main
      = (.error "ValueError: cannot reshape array" : Except String (NDArray α)) := by
    unfold npReshape
    rw [if_neg hfullshape]
  rw [hres]
  constructor
  · intro hno
    have : npReshapeInferLast (sortedDims (transposeM pos)).reverse main
        = (.error "ValueError: cannot reshape array" : Except String (NDArray α)) := by
      unfold npReshapeInferLast
      rw [if_neg (by rw [List.prod_reverse]; exact hno)]
    rw [this]
  · intro hyes
    have : npReshapeInferLast (sortedDims (transposeM pos)).reverse main
        = .ok ⟨(sortedDims (transposeM pos)).reverse
            ++ [main.shape.prod / (sortedDims (transposeM pos)).reverse.prod],
          main.data⟩ := by
      unfold npReshapeInferLast
      rw [if_pos (by rw [List.prod_reverse]; exact hyes)]
    rw [this]

theorem c3_witness :
    ((⟨[4, 5], List.range 20⟩ : NDArray Nat).shape.length = 2 ∧
      (sortedDims (transposeM [[0], [1], [2], [0]])).prod * (sortedDims [[0, 1, 2, 3, 4]]).prod
        ≠ (⟨[4, 5], List.range 20⟩ : NDArray Nat).shape.prod) ∧
    (¬ ((sortedDims (transposeM [[0], [1], [2], [0]])).prod ≠ 0 ∧
        (sortedDims (transposeM [[0], [1], [2], [0]])).prod
          ∣ (⟨[4, 5], List.range 20⟩ : NDArray Nat).shape.prod) →
      reshape_to_n_dims (⟨[4, 5], List.range 20⟩ : NDArray Nat) [[0], [1], [2], [0]]
        [[0, 1, 2, 3, 4]] = .ok (⟨[4, 5], List.range 20⟩, RStatus.failed)) ∧
    (((sortedDims (transposeM [[0], [1], [2], [0]])).prod ≠ 0 ∧
        (sortedDims (transposeM [[0], [1], [2], [0]])).prod
          ∣ (⟨[4, 5], List.range 20⟩ : NDArray Nat).shape.prod) →
      reshape_to_n_dims (⟨[4, 5], List.range 20⟩ : NDArray Nat) [[0], [1], [2], [0]]
        [[0, 1, 2, 3, 4]] =
        .ok (⟨(sortedDims (transposeM [[0], [1], [2], [0]])).reverse
            ++ [(⟨[4, 5], List.range 20⟩ : NDArray Nat).shape.prod
              / (sortedDims (transposeM [[0], [1], [2], [0]])).reverse.prod],
          (⟨[4, 5], List.range 20⟩ : NDArray Nat).data⟩, RStatus.positions)) :=
  ⟨⟨by decide, by decide⟩,
    c3_reshape_fallback (⟨[4, 5], List.range 20⟩ : NDArray Nat) [[0], [1], [2], [0]]
      [[0, 1, 2, 3, 4]] (by decide) (by decide) (by decide) (by decide) (by decide) (by decide)⟩

/-- C10: when the input array has rank below 2 and at least one ancillary is
supplied, `reshape_from_n_dims` returns the array unchanged with status True,
before any of the ancillary shape, element-count or dimension-count
validations run (the ancillaries may be arbitrary). -/
theorem c10_low_rank_passthrough [Inhabited α] (data : NDArray α) (p q : Option Mat)
    (hrank : data.shape.length < 2) (hgiven : p ≠ none ∨ q ≠ none) :
    reshape_from_n_dims data p q = .ok (data, true) := by
  unfold reshape_from_n_dims
  rw [if_neg (show ¬ (p = none ∧ q = none) from by
    rcases hgiven with h | h
    · exact fun hc => h hc.1
    · exact fun hc => h hc.2)]
  rw [if_pos hrank]

theorem c10_witness :
    ((⟨[3], [7, 8, 9]⟩ : NDArray Nat).shape.length < 2
      ∧ (some [[5, 5], [5, 5]] ≠ (none : Option Mat) ∨ (none : Option Mat) ≠ none)) ∧
    reshape_from_n_dims (⟨[3], [7, 8, 9]⟩ : NDArray Nat) (some [[5, 5], [5, 5]]) none
      = .ok (⟨[3], [7, 8, 9]⟩, true) :=
  ⟨⟨by decide, Or.inl (by decide)⟩,
    c10_low_rank_passthrough (⟨[3], [7, 8, 9]⟩ : NDArray Nat) (some [[5, 5], [5, 5]]) none
      (by decide) (Or.inl (by decide))⟩

/-! ### Claim C1: round-trip helpers -/

theorem transposeM_nrows [Inhabited α] (m : List (List α)) :
    nrows (transposeM m) = ncols m := by
  simp [transposeM, nrows]

theorem transposeM_ncols [Inhabited α] (m : List (List α)) (h : 1 ≤ ncols m) :
    ncols (transposeM m) = nrows m := by
  obtain ⟨k, hk⟩ : ∃ k, ncols m = k + 1 := ⟨ncols m - 1, by omega⟩
  unfold transposeM
  rw [hk, List.range_succ_eq_map]
  simp [ncols, nrows]

theorem map_getD_range_self [Inhabited α] (xs : List α) (n : Nat) (h : xs.length = n) :
    (List.range n).map (fun i => xs.getD i default) = xs := by
  refine List.ext_getElem (by simp [h]) (fun k h₁ h₂ => ?_)
  rw [List.getElem_map, List.getElem_range, List.getD_eq_getElem xs default h₂]

theorem applyPerm_perm [Inhabited α] (axes : List Nat) (xs : List α)
    (hax : List.Perm axes (List.range xs.length)) :
    List.Perm (applyPerm axes xs) xs := by
  have h1 : List.Perm (applyPerm axes xs)
      ((List.range xs.length).map (fun i => xs.getD i default)) :=
    List.Perm.map _ hax
  rwa [map_getD_range_self xs _ rfl] at h1

theorem applyPerm_map_range {β : Type} [Inhabited β] (f : Nat → β) (axes : List Nat) (n : Nat)
    (h : ∀ x ∈ axes, x < n) :
    applyPerm axes ((List.range n).map f) = axes.map f := by
  unfold applyPerm
  refine List.map_congr_left (fun a ha => ?_)
  exact getD_map_range f n a default (h a ha)

theorem indexOf_map_inj {β : Type} [DecidableEq β] (f : Nat → β)
    (hinj : ∀ a b, f a = f b → a = b) (l : List Nat) (a : Nat) :
    (l.map f).indexOf (f a) = l.indexOf a := by
  induction l with
  | nil => rfl
  | cons b t ih =>
    by_cases hab : b = a
    · subst hab
      rw [List.map_cons, List.indexOf_cons_self, List.indexOf_cons_self]
    · rw [List.map_cons, List.indexOf_cons_ne _ (fun hc => hab (hinj b a hc)),
        List.indexOf_cons_ne _ hab, ih]

theorem indexOf_append_not_mem {β : Type} [DecidableEq β] (a : β) (l₁ l₂ : List β)
    (h : a ∉ l₁) : (l₁ ++ l₂).indexOf a = l₁.length + l₂.indexOf a := by
  induction l₁ with
  | nil => simp
  | cons b t ih =>
    have hba : b ≠ a := fun hc => h (hc ▸ List.mem_cons_self b t)
    rw [List.cons_append, List.indexOf_cons_ne _ hba, ih (fun hc => h (List.mem_cons_of_mem _ hc))]
    simp only [List.length_cons]
    omega

theorem perm_range_of_nodup_bounded (l : List Nat) (n : Nat) (hnd : l.Nodup)
    (hb : ∀ x ∈ l, x < n) (hl : l.length = n) : List.Perm l (List.range n) := by
  have hsub : l ⊆ List.range n := fun x hx => List.mem_range.mpr (hb x hx)
  have hsp : l.Subperm (List.range n) := List.Nodup.subperm hnd hsub
  exact List.Subperm.perm_of_length_le hsp (by simp [hl])

theorem getD_map_nat (f : Nat → Nat) (l : List Nat) (i : Nat) (h : i < l.length) :
    (l.map f).getD i 0 = f (l.getD i 0) := by
  rw [List.getD_eq_getElem _ 0 (by simpa using h), List.getElem_map,
    List.getD_eq_getElem l 0 h]

/-- The `sort_dims=False` axis permutation computed from the synthetic labels:
looking each original-order label up in the reversed-sorted label list. -/
theorem swapAxes_label_eq (q1 q2 : List Nat) (p s : Nat)
    (hq1 : List.Perm q1 (List.range p)) (hq2 : List.Perm q2 (List.range s)) :
    (((List.range p).map Label.position ++ (List.range s).map Label.spectral).map
      (fun lab =>
        ((applyPerm q1 ((List.range p).map Label.position)).reverse
          ++ (applyPerm q2 ((List.range s).map Label.spectral)).reverse).indexOf lab)) =
    (List.range p).map (fun i => q1.reverse.indexOf i)
      ++ (List.range s).map (fun j => p + q2.reverse.indexOf j) := by
  obtain ⟨hl1, hnd1, hm1⟩ := permRange_facts hq1
  obtain ⟨hl2, hnd2, hm2⟩ := permRange_facts hq2
  have hA : (applyPerm q1 ((List.range p).map Label.position)).reverse
      = q1.reverse.map Label.position := by
    rw [applyPerm_map_range Label.position q1 p (fun x hx => (hm1 x).mp hx),
      List.map_reverse]
  have hB : (applyPerm q2 ((List.range s).map Label.spectral)).reverse
      = q2.reverse.map Label.spectral := by
    rw [applyPerm_map_range Label.spectral q2 s (fun x hx => (hm2 x).mp hx),
      List.map_reverse]
  rw [hA, hB, List.map_append]
  congr 1
  · rw [List.map_map]
    refine List.map_congr_left (fun i hi => ?_)
    have hip : i < p := List.mem_range.mp hi
    have himem : Label.position i ∈ q1.reverse.map Label.position := by
      rw [List.mem_map]
      exact ⟨i, List.mem_reverse.mpr ((hm1 i).mpr hip), rfl⟩
    show (q1.reverse.map Label.position ++ q2.reverse.map Label.spectral).indexOf
        (Label.position i) = q1.reverse.indexOf i
    rw [List.indexOf_append_of_mem himem,
      indexOf_map_inj Label.position (fun a b h => Label.position.injEq a b ▸ h) _ i]
  · rw [List.map_map]
    refine List.map_congr_left (fun j hj => ?_)
    have hnmem : Label.spectral j ∉ q1.reverse.map Label.position := by
      rw [List.mem_map]
      rintro ⟨x, _, hx⟩
      exact absurd hx (by simp)
    show (q1.reverse.map Label.position ++ q2.reverse.map Label.spectral).indexOf
        (Label.spectral j) = p + q2.reverse.indexOf j
    rw [indexOf_append_not_mem _ _ _ hnmem,
      indexOf_map_inj Label.spectral (fun a b h => Label.spectral.injEq a b ▸ h) _ j]
    simp [hl1]

theorem indexOf_perm_map_perm (q : List Nat) (p : Nat) (hq : List.Perm q (List.range p)) :
    List.Perm ((List.range p).map (fun i => q.indexOf i)) (List.range p) := by
  obtain ⟨hl, hnd, hm⟩ := permRange_facts hq
  refine perm_range_of_nodup_bounded _ p ?_ ?_ (by simp)
  · refine (List.nodup_range p).map_on (fun x hx y hy hxy => ?_)
    exact (List.indexOf_inj ((hm x).mpr (List.mem_range.mp hx))
      ((hm y).mpr (List.mem_range.mp hy))).mp hxy
  · intro x hx
    rw [List.mem_map] at hx
    obtain ⟨i, hi, hix⟩ := hx
    rw [← hix, ← hl]
    exact List.indexOf_lt_length.mpr ((hm i).mpr (List.mem_range.mp hi))

theorem swap1_perm (q1 q2 : List Nat) (p s : Nat)
    (hq1 : List.Perm q1 (List.range p)) (hq2 : List.Perm q2 (List.range s)) :
    List.Perm ((List.range p).map (fun i => q1.reverse.indexOf i)
        ++ (List.range s).map (fun j => p + q2.reverse.indexOf j))
      (List.range (p + s)) := by
  have hr1 : List.Perm q1.reverse (List.range p) := (List.reverse_perm q1).trans hq1
  have hr2 : List.Perm q2.reverse (List.range s) := (List.reverse_perm q2).trans hq2
  have h1 := indexOf_perm_map_perm q1.reverse p hr1
  have h2 := indexOf_perm_map_perm q2.reverse s hr2
  have h2' : List.Perm ((List.range s).map (fun j => p + q2.reverse.indexOf j))
      ((List.range s).map (fun j => p + j)) := by
    have := h2.map (fun x => p + x)
    simpa [Function.comp, List.map_map] using this
  rw [List.range_add]
  exact h1.append h2'

theorem swap2_perm (q1 q2 : List Nat) (p s : Nat)
    (hq1 : List.Perm q1 (List.range p)) (hq2 : List.Perm q2 (List.range s)) :
    List.Perm (q1.reverse ++ q2.reverse.map (· + p)) (List.range (p + s)) := by
  have hr1 : List.Perm q1.reverse (List.range p) := (List.reverse_perm q1).trans hq1
  have hr2 : List.Perm q2.reverse (List.range s) := (List.reverse_perm q2).trans hq2
  have h2' : List.Perm (q2.reverse.map (· + p)) ((List.range s).map (fun j => p + j)) := by
    have := hr2.map (· + p)
    refine this.trans ?_
    rw [List.map_congr_left (fun x _ => Nat.add_comm x p)]
  rw [List.range_add]
  exact hr1.append h2'

theorem swap_comp_id (q1 q2 : List Nat) (p s : Nat)
    (hq1 : List.Perm q1 (List.range p)) (hq2 : List.Perm q2 (List.range s)) :
    ∀ k, k < p + s →
      ((List.range p).map (fun i => q1.reverse.indexOf i)
        ++ (List.range s).map (fun j => p + q2.reverse.indexOf j)).getD
        ((q1.reverse ++ q2.reverse.map (· + p)).getD k 0) 0 = k := by
  intro k hk
  have hr1 : List.Perm q1.reverse (List.range p) := (List.reverse_perm q1).trans hq1
  have hr2 : List.Perm q2.reverse (List.range s) := (List.reverse_perm q2).trans hq2
  obtain ⟨hl1, hnd1, hm1⟩ := permRange_facts hr1
  obtain ⟨hl2, hnd2, hm2⟩ := permRange_facts hr2
  by_cases hkp : k < p
  · have hk1 : k < q1.reverse.length := hl1 ▸ hkp
    rw [List.getD_append _ _ 0 k hk1]
    have hv : q1.reverse.getD k 0 = q1.reverse[k] := List.getD_eq_getElem _ 0 hk1
    have hvp : q1.reverse.getD k 0 < p := by
      rw [hv]
      exact (hm1 _).mp (List.getElem_mem hk1)
    rw [List.getD_append _ _ 0 _ (by simpa using hvp),
      getD_map_range _ _ _ _ hvp, hv, List.indexOf_getElem hnd1 k hk1]
  · have hj : k - p < s := by omega
    have hkge : q1.reverse.length ≤ k := by omega
    rw [List.getD_append_right _ _ 0 k hkge, hl1]
    have hj2a : k - p < q2.reverse.length := by rw [hl2]; exact hj
    have hjlen : k - p < (q2.reverse.map (· + p)).length := by
      rw [List.length_map]; exact hj2a
    have hw : (q2.reverse.map (· + p)).getD (k - p) 0 = q2.reverse.getD (k - p) 0 + p := by
      rw [List.getD_eq_getElem _ 0 hjlen, List.getElem_map,
        List.getD_eq_getElem _ 0 hj2a]
    have hws : q2.reverse.getD (k - p) 0 < s := by
      rw [List.getD_eq_getElem _ 0 hj2a]
      exact (hm2 _).mp (List.getElem_mem hj2a)
    rw [hw]
    have hge : ((List.range p).map (fun i => q1.reverse.indexOf i)).length
        ≤ q2.reverse.getD (k - p) 0 + p := by simp
    rw [List.getD_append_right _ _ 0 _ hge]
    simp only [List.length_map, List.length_range, Nat.add_sub_cancel]
    rw [getD_map_range _ _ _ _ hws]
    have hj2 : k - p < q2.reverse.length := by rw [hl2]; exact hj
    have hgetw : q2.reverse.getD (k - p) 0 = q2.reverse[k - p] :=
      List.getD_eq_getElem _ 0 hj2
    rw [hgetw, List.indexOf_getElem hnd2 _ hj2]
    omega

/-- C1 counterexample: for the perfectly consistent Main dataset with a single
position (`Position_Indices = [[0]]`, 1x1) and one spectroscopic dimension of
two steps, `to_nd` succeeds, but `to_2d` sets `pos_sort = []` because
`ds_pos.size == 1`, builds a 1-entry axis permutation for the 2-D intermediate
array, and `np.transpose` raises instead of returning the original array. -/
theorem c1_counterexample :
    roundTrip (⟨[1, 2], [10, 20]⟩ : NDArray Nat) [[0]] [[0, 1]]
      = .error "axes dont match array" := by decide

/-- The axis permutation `to_nd` derives from the label lookups
(`sort_dims=False` branch). -/
def swap1Of (p s : Nat) (q1 q2 : List Nat) : List Nat :=
  (List.range p).map (fun i => q1.reverse.indexOf i)
    ++ (List.range s).map (fun j => p + q2.reverse.indexOf j)

/-- The axis permutation `to_2d` builds from the reversed sort orders. -/
def swap2Of (p : Nat) (q1 q2 : List Nat) : List Nat :=
  q1.reverse ++ q2.reverse.map (· + p)

/-- The array `npTranspose` returns on success. -/
def npTransposeVal [Inhabited α] (axes : List Nat) (a : NDArray α) : NDArray α :=
  ⟨applyPerm axes a.shape, (List.range (applyPerm axes a.shape).prod).map
    (fun j => a.data.getD
      (encodeIdx a.shape (invApply axes (decodeIdx (applyPerm axes a.shape) j))) default)⟩

theorem npTranspose_ok_val [Inhabited α] (axes : List Nat) (a : NDArray α) {n : Nat}
    (hn : a.shape.length = n) (hax : List.Perm axes (List.range n)) :
    npTranspose axes a = .ok (npTransposeVal axes a) :=
  npTranspose_ok_of_perm axes a hn hax

theorem swapAxes_label_eq' (q1 q2 : List Nat) (p s : Nat)
    (hq1 : List.Perm q1 (List.range p)) (hq2 : List.Perm q2 (List.range s)) :
    (((List.range p).map Label.position ++ (List.range s).map Label.spectral).map
      (fun lab =>
        ((applyPerm q1 ((List.range p).map Label.position)).reverse
          ++ (applyPerm q2 ((List.range s).map Label.spectral)).reverse).indexOf lab)) =
    swap1Of p s q1 q2 :=
  swapAxes_label_eq q1 q2 p s hq1 hq2

theorem swap1Of_perm (q1 q2 : List Nat) (p s : Nat)
    (hq1 : List.Perm q1 (List.range p)) (hq2 : List.Perm q2 (List.range s)) :
    List.Perm (swap1Of p s q1 q2) (List.range (p + s)) :=
  swap1_perm q1 q2 p s hq1 hq2

theorem swap2Of_perm (q1 q2 : List Nat) (p s : Nat)
    (hq1 : List.Perm q1 (List.range p)) (hq2 : List.Perm q2 (List.range s)) :
    List.Perm (swap2Of p q1 q2) (List.range (p + s)) :=
  swap2_perm q1 q2 p s hq1 hq2

theorem swapOf_comp_id (q1 q2 : List Nat) (p s : Nat)
    (hq1 : List.Perm q1 (List.range p)) (hq2 : List.Perm q2 (List.range s)) :
    ∀ k, k < p + s →
      (swap1Of p s q1 q2).getD ((swap2Of p q1 q2).getD k 0) 0 = k :=
  swap_comp_id q1 q2 p s hq1 hq2

/-- C1 (amended): for a Main dataset whose ancillary index matrices are
consistent — per-row distinct-value-count products equal to the matching main
axis, at least one dimension row, no more rows than steps, and more than one
element in each ancillary matrix — `to_nd` followed by `to_2d` with the same
ancillaries returns exactly the original 2-D array. -/
theorem c1_roundtrip {α : Type} [Inhabited α] (main : NDArray α) (pos spec : Mat)
    (npos nspec p s : Nat)
    (hshape : main.shape = [npos, nspec])
    (hwf : main.data.length = main.shape.prod)
    (hrp : nrows pos = npos) (hcp : ncols pos = p)
    (hrs : nrows spec = s) (hcs2 : ncols spec = nspec)
    (hp1 : 1 ≤ p) (hs1 : 1 ≤ s)
    (hnfp : p ≤ npos) (hnfs : s ≤ nspec)
    (hszp : npos * p ≠ 1) (hszs : s * nspec ≠ 1)
    (hprodp : (sortedDims (transposeM pos)).prod = npos)
    (hprods : (sortedDims spec).prod = nspec) :
    roundTrip main pos spec = .ok (main, true) := by
  have hm2 : main.shape.length = 2 := by rw [hshape]; rfl
  have hg0 : main.shape.getD 0 0 = npos := by rw [hshape]; rfl
  have hg1 : main.shape.getD 1 0 = nspec := by rw [hshape]; rfl
  have hprodmain : main.shape.prod = npos * nspec := by rw [hshape]; simp
  have hncolsP : ncols (transposeM pos) = npos := by
    rw [transposeM_ncols pos (by omega), hrp]
  have hnrowsP : nrows (transposeM pos) = p := by rw [transposeM_nrows, hcp]
  have hnoflipP : ¬ nrows (transposeM pos) > ncols (transposeM pos) := by
    rw [hncolsP, hnrowsP]; omega
  have horientP : orientM (transposeM pos) = transposeM pos := if_neg hnoflipP
  have hnoflipS : ¬ nrows spec > ncols spec := by rw [hrs, hcs2]; omega
  have horientS : orientM spec = spec := if_neg hnoflipS
  have hp1' : 1 ≤ nrows (orientM (transposeM pos)) := by rw [horientP, hnrowsP]; omega
  have hs1' : 1 ≤ nrows (orientM spec) := by rw [horientS, hrs]; omega
  have hq1 : List.Perm (get_sort_order (transposeM pos)) (List.range p) := by
    have := get_sort_order_perm_orient (transposeM pos)
    rwa [horientP, hnrowsP] at this
  have hq2 : List.Perm (get_sort_order spec) (List.range s) := by
    have := get_sort_order_perm_orient spec
    rwa [horientS, hrs] at this
  have hlq1 : (get_sort_order (transposeM pos)).length = p := by
    simpa using hq1.length_eq
  have hlpd : (sortedDims (transposeM pos)).length = p := by
    rw [sortedDims, List.length_map, hlq1]
  have hlsd : (sortedDims spec).length = s := by
    rw [sortedDims, List.length_map]
    simpa using hq2.length_eq
  have hndlen : ((sortedDims (transposeM pos)).reverse ++ (sortedDims spec).reverse).length
      = p + s := by simp [hlpd, hlsd]
  have hndprod : ((sortedDims (transposeM pos)).reverse ++ (sortedDims spec).reverse).prod
      = npos * nspec := by
    rw [List.prod_append, List.prod_reverse, List.prod_reverse, hprodp, hprods]
  have hreshape : npReshape
      ((sortedDims (transposeM pos)).reverse ++ (sortedDims spec).reverse) main
      = .ok ⟨(sortedDims (transposeM pos)).reverse ++ (sortedDims spec).reverse, main.data⟩ := by
    unfold npReshape
    rw [if_pos (by rw [hndprod, hprodmain])]
  have hndshapelen : ((⟨(sortedDims (transposeM pos)).reverse ++ (sortedDims spec).reverse,
      main.data⟩ : NDArray α)).shape.length = p + s := hndlen
  have hndwf : ((⟨(sortedDims (transposeM pos)).reverse ++ (sortedDims spec).reverse,
      main.data⟩ : NDArray α)).data.length
      = ((⟨(sortedDims (transposeM pos)).reverse ++ (sortedDims spec).reverse,
        main.data⟩ : NDArray α)).shape.prod := by
    show main.data.length
      = ((sortedDims (transposeM pos)).reverse ++ (sortedDims spec).reverse).prod
    rw [hndprod, hwf, hprodmain]
  have htr1 := npTranspose_ok_val
    (swap1Of p s (get_sort_order (transposeM pos)) (get_sort_order spec))
    (⟨(sortedDims (transposeM pos)).reverse ++ (sortedDims spec).reverse, main.data⟩ : NDArray α)
    hndshapelen (swap1Of_perm _ _ p s hq1 hq2)
  have hcancel := npTranspose_cancel
    (⟨(sortedDims (transposeM pos)).reverse ++ (sortedDims spec).reverse, main.data⟩ : NDArray α)
    (swap1Of p s (get_sort_order (transposeM pos)) (get_sort_order spec))
    (swap2Of p (get_sort_order (transposeM pos)) (get_sort_order spec))
    hndshapelen hndwf (swap1Of_perm _ _ p s hq1 hq2) (swap2Of_perm _ _ p s hq1 hq2)
    (swapOf_comp_id _ _ p s hq1 hq2)
  rw [htr1, except_bind_ok] at hcancel
  have htond : reshape_to_n_dims main pos spec
      = .ok (npTransposeVal
          (swap1Of p s (get_sort_order (transposeM pos)) (get_sort_order spec))
          (⟨(sortedDims (transposeM pos)).reverse ++ (sortedDims spec).reverse, main.data⟩
            : NDArray α), RStatus.full) := by
    rw [reshape_to_n_dims_eval main pos spec hm2 (by rw [hg0, hrp]) (by rw [hg1, hcs2])
      hp1' hs1', hreshape]
    dsimp only
    rw [hcp, hrs, swapAxes_label_eq' (get_sort_order (transposeM pos)) (get_sort_order spec)
      p s hq1 hq2, htr1, except_bind_ok]
  unfold roundTrip
  rw [htond, except_bind_ok]
  have ht1shape : (npTransposeVal
      (swap1Of p s (get_sort_order (transposeM pos)) (get_sort_order spec))
      (⟨(sortedDims (transposeM pos)).reverse ++ (sortedDims spec).reverse, main.data⟩
        : NDArray α)).shape
      = applyPerm (swap1Of p s (get_sort_order (transposeM pos)) (get_sort_order spec))
        ((sortedDims (transposeM pos)).reverse ++ (sortedDims spec).reverse) := rfl
  have hswlen : (swap1Of p s (get_sort_order (transposeM pos)) (get_sort_order spec)).length
      = p + s := by simpa using (swap1Of_perm _ _ p s hq1 hq2).length_eq
  have ht1len : (npTransposeVal
      (swap1Of p s (get_sort_order (transposeM pos)) (get_sort_order spec))
      (⟨(sortedDims (transposeM pos)).reverse ++ (sortedDims spec).reverse, main.data⟩
        : NDArray α)).shape.length = p + s := by
    rw [ht1shape, applyPerm_length, hswlen]
  have ht1prod : (npTransposeVal
      (swap1Of p s (get_sort_order (transposeM pos)) (get_sort_order spec))
      (⟨(sortedDims (transposeM pos)).reverse ++ (sortedDims spec).reverse, main.data⟩
        : NDArray α)).shape.prod = npos * nspec := by
    rw [ht1shape, ← hndprod]
    exact (applyPerm_perm _ _ (by rw [hndlen]; exact swap1Of_perm _ _ p s hq1 hq2)).prod_eq
  unfold reshape_from_n_dims
  rw [if_neg (show ¬ ((some pos : Option Mat) = none ∧ (some spec : Option Mat) = none)
    from fun hc => by simp at hc)]
  rw [if_neg (show ¬ (npTransposeVal
      (swap1Of p s (get_sort_order (transposeM pos)) (get_sort_order spec))
      (⟨(sortedDims (transposeM pos)).reverse ++ (sortedDims spec).reverse, main.data⟩
        : NDArray α)).shape.length < 2 from by rw [ht1len]; omega)]
  dsimp only
  rw [if_neg (show ¬ nrows pos * ncols spec ≠ (npTransposeVal
      (swap1Of p s (get_sort_order (transposeM pos)) (get_sort_order spec))
      (⟨(sortedDims (transposeM pos)).reverse ++ (sortedDims spec).reverse, main.data⟩
        : NDArray α)).shape.prod from by
    rw [hrp, hcs2, ht1prod]; exact fun h => h rfl)]
  rw [if_neg (show ¬ (ncols pos + nrows spec ≠ (npTransposeVal
      (swap1Of p s (get_sort_order (transposeM pos)) (get_sort_order spec))
      (⟨(sortedDims (transposeM pos)).reverse ++ (sortedDims spec).reverse, main.data⟩
        : NDArray α)).shape.length
      ∧ ¬ (matSize pos = 1 ∨ matSize spec = 1)) from by
    rintro ⟨hne, _⟩
    rw [hcp, hrs, ht1len] at hne
    exact hne rfl)]
  unfold reshape_from_n_dims_core
  rw [if_neg (show ¬ matSize pos = 1 from by unfold matSize; rw [hrp, hcp]; exact hszp)]
  rw [if_neg (show ¬ matSize spec = 1 from by unfold matSize; rw [hrs, hcs2]; exact hszs)]
  simp only [Bool.false_eq_true, if_false]
  rw [hlq1]
  rw [show (get_sort_order (transposeM pos)).reverse
      ++ (get_sort_order spec).reverse.map (· + p)
      = swap2Of p (get_sort_order (transposeM pos)) (get_sort_order spec) from rfl]
  rw [hcancel, except_bind_ok]
  have hfinal : npReshape [nrows pos, ncols spec]
      (⟨(sortedDims (transposeM pos)).reverse ++ (sortedDims spec).reverse, main.data⟩
        : NDArray α)
      = .ok ⟨[nrows pos, ncols spec], main.data⟩ := by
    have hcond : ([nrows pos, ncols spec] : List Nat).prod
        = ((⟨(sortedDims (transposeM pos)).reverse ++ (sortedDims spec).reverse, main.data⟩
          : NDArray α)).shape.prod := by
      show ([nrows pos, ncols spec] : List Nat).prod
        = ((sortedDims (transposeM pos)).reverse ++ (sortedDims spec).reverse).prod
      rw [hrp, hcs2, hndprod]
      simp
    unfold npReshape
    rw [if_pos hcond]
  rw [hfinal]
  rw [show ([nrows pos, ncols spec] : List Nat) = main.shape from by rw [hrp, hcs2, hshape]]

theorem c1_witness :
    ((sortedDims (transposeM [[0], [1]])).prod = 2
      ∧ (sortedDims [[0, 1, 0, 1, 0, 1], [0, 0, 1, 1, 2, 2]]).prod = 6) ∧
    roundTrip (⟨[2, 6], List.range 12⟩ : NDArray Nat) [[0], [1]]
      [[0, 1, 0, 1, 0, 1], [0, 0, 1, 1, 2, 2]]
      = .ok (⟨[2, 6], List.range 12⟩, true) :=
  ⟨⟨by decide, by decide⟩,
    c1_roundtrip (⟨[2, 6], List.range 12⟩ : NDArray Nat) [[0], [1]]
      [[0, 1, 0, 1, 0, 1], [0, 0, 1, 1, 2, 2]] 2 6 1 2
      (by decide) (by decide) (by decide) (by decide) (by decide) (by decide)
      (by decide) (by decide) (by decide) (by decide) (by decide) (by decide)
      (by decide) (by decide)⟩

/-! ### check_if_main (hdf_utils.py lines 1103-1191)

The HDF5 store is modelled only as far as `check_if_main` observes it: the
candidate is either a dataset (with a shape) or not, each of the four link
attributes either resolves (to a dataset or to a group) or fails with KeyError
(missing attribute or dangling reference, both caught by the bare `except`),
and the scalar 'quantity'/'units' attributes are present or not. -/

inductive H5Ent where
  | dset (shape : List Nat)
  | group
deriving DecidableEq, Repr

structure MainCand where
  isDset : Bool
  shape : List Nat
  hasQuantity : Bool
  hasUnits : Bool
  posInds : Option H5Ent
  posVals : Option H5Ent
  specInds : Option H5Ent
  specVals : Option H5Ent
deriving DecidableEq, Repr

/-- `.shape` on a resolved link: groups have no shape (AttributeError). -/
def entShape : H5Ent → Except String (List Nat)
  | .dset sh => .ok sh
  | .group => .error "AttributeError: object has no attribute shape"

/-- python `tuple[i]`. -/
def tupleIdx (sh : List Nat) (i : Nat) : Except String Nat :=
  if i < sh.length then .ok (sh.getD i 0) else .error "IndexError: tuple index out of range"

def isDsetEnt : H5Ent → Bool
  | .dset _ => true
  | .group => false

/-- `check_if_main(h5_main)`.  The link-resolution loop catches all exceptions
and returns False, but only ANDs `isinstance(..., h5py.Dataset)` into its
accumulator and keeps going; the later shape section dereferences the links
again without protection, so a group link or an ancillary of too small a rank
raises (AttributeError / IndexError). -/
def check_if_main (m : MainCand) : Except String Bool :=
  if ¬ m.isDset then .ok false
  else if m.shape.length ≠ 2 then .ok false
  else
    match m.posInds, m.posVals, m.specInds, m.specVals with
    | some pi0, some pv0, some si0, some sv0 =>
        let success := isDsetEnt pi0 && isDsetEnt pv0 && isDsetEnt si0 && isDsetEnt sv0
        if ¬ (m.hasQuantity ∧ m.hasUnits) then .ok false
        else
          (entShape pi0).bind fun shPI =>
          (entShape pv0).bind fun shPV =>
          (tupleIdx shPV 0).bind fun pv0c =>
          (tupleIdx shPI 0).bind fun pi0c =>
          if ¬ (shPV = shPI ∧ m.shape.getD 0 0 = pv0c ∧ m.shape.getD 0 0 = pi0c) then .ok false
          else
            (entShape si0).bind fun shSI =>
            (entShape sv0).bind fun shSV =>
            (tupleIdx shSI 1).bind fun si1c =>
            (tupleIdx shSV 1).bind fun sv1c =>
            if ¬ (shSI = shSV ∧ m.shape.getD 1 0 = si1c ∧ m.shape.getD 1 0 = sv1c) then .ok false
            else .ok success
    | _, _, _, _ => .ok false

/-- C7 counterexample: a candidate whose Position ancillaries are 1-D arrays of
shape `[2]` still passes every check (the pair's shapes are equal and their
first axis matches the main row count), so `check_if_main` returns True even
though the linked ancillaries are not 2-D. -/
theorem c7_counterexample :
    check_if_main ⟨true, [2, 3], true, true,
        some (.dset [2]), some (.dset [2]), some (.dset [1, 3]), some (.dset [1, 3])⟩
      = .ok true ∧
    entShape (.dset [2]) = .ok [2] ∧ ([2] : List Nat).length ≠ 2 := by decide

theorem bind_ok_inv {ε A B : Type} {x : Except ε A} {f : A → Except ε B} {b : B}
    (h : x.bind f = .ok b) : ∃ a, x = .ok a ∧ f a = .ok b := by
  rcases x with e | a
  · exact absurd h (by simp [Except.bind])
  · exact ⟨a, rfl, h⟩

theorem entShape_ok_inv {e : H5Ent} {sh : List Nat} (h : entShape e = .ok sh) :
    e = .dset sh := by
  rcases e with sh' | _
  · simpa [entShape] using h
  · exact absurd h (by simp [entShape])

theorem tupleIdx_ok_inv {sh : List Nat} {i v : Nat} (h : tupleIdx sh i = .ok v) :
    i < sh.length ∧ v = sh.getD i 0 := by
  unfold tupleIdx at h
  by_cases hb : i < sh.length
  · rw [if_pos hb] at h
    exact ⟨hb, by simpa using h.symm⟩
  · rw [if_neg hb] at h
    exact absurd h (by simp)

/-- C7 (amended): `check_if_main` returns True only if the candidate is a 2-D
dataset carrying 'quantity' and 'units', with four links resolving to datasets
whose shapes satisfy: the Position pair's shapes are equal with first axis
equal to the main row count, and the Spectroscopic pair's shapes are equal
with second axis equal to the main column count.  The ancillaries themselves
are NOT required to be 2-D. -/
theorem c7_main_check_only_if (m : MainCand) (h : check_if_main m = .ok true) :
    m.isDset = true ∧ m.shape.length = 2 ∧ m.hasQuantity = true ∧ m.hasUnits = true ∧
    ∃ shPI shPV shSI shSV,
      m.posInds = some (.dset shPI) ∧ m.posVals = some (.dset shPV) ∧
      m.specInds = some (.dset shSI) ∧ m.specVals = some (.dset shSV) ∧
      shPV = shPI ∧ m.shape.getD 0 0 = shPV.getD 0 0 ∧ m.shape.getD 0 0 = shPI.getD 0 0 ∧
      shSI = shSV ∧ m.shape.getD 1 0 = shSI.getD 1 0 ∧ m.shape.getD 1 0 = shSV.getD 1 0 := by
  unfold check_if_main at h
  by_cases h1 : ¬ m.isDset
  · rw [if_pos h1] at h
    exact absurd h (by simp)
  rw [if_neg h1] at h
  by_cases h2 : m.shape.length ≠ 2
  · rw [if_pos h2] at h
    exact absurd h (by simp)
  rw [if_neg h2] at h
  refine ⟨by simpa using h1, by omega, ?_⟩
  rcases hpi : m.posInds with _ | pi0 <;> rw [hpi] at h
  · exact absurd h (by simp)
  rcases hpv : m.posVals with _ | pv0 <;> rw [hpv] at h
  · exact absurd h (by simp)
  rcases hsi : m.specInds with _ | si0 <;> rw [hsi] at h
  · exact absurd h (by simp)
  rcases hsv : m.specVals with _ | sv0 <;> rw [hsv] at h
  · exact absurd h (by simp)
  simp only [] at h
  by_cases hqu : ¬ (m.hasQuantity ∧ m.hasUnits)
  · rw [if_pos hqu] at h
    exact absurd h (by simp)
  rw [if_neg hqu] at h
  have hqu' := not_not.mp hqu
  refine ⟨by simp [hqu'.1], by simp [hqu'.2], ?_⟩
  obtain ⟨shPI, hePI, h⟩ := bind_ok_inv h
  obtain ⟨shPV, hePV, h⟩ := bind_ok_inv h
  obtain ⟨pv0c, htPV, h⟩ := bind_ok_inv h
  obtain ⟨pi0c, htPI, h⟩ := bind_ok_inv h
  by_cases hc1 : ¬ (shPV = shPI ∧ m.shape.getD 0 0 = pv0c ∧ m.shape.getD 0 0 = pi0c)
  · rw [if_pos hc1] at h
    exact absurd h (by simp)
  rw [if_neg hc1] at h
  obtain ⟨he1, he2, he3⟩ := not_not.mp hc1
  obtain ⟨shSI, heSI, h⟩ := bind_ok_inv h
  obtain ⟨shSV, heSV, h⟩ := bind_ok_inv h
  obtain ⟨si1c, htSI, h⟩ := bind_ok_inv h
  obtain ⟨sv1c, htSV, h⟩ := bind_ok_inv h
  by_cases hc2 : ¬ (shSI = shSV ∧ m.shape.getD 1 0 = si1c ∧ m.shape.getD 1 0 = sv1c)
  · rw [if_pos hc2] at h
    exact absurd h (by simp)
  obtain ⟨hf1, hf2, hf3⟩ := not_not.mp hc2
  refine ⟨shPI, shPV, shSI, shSV,
    by rw [entShape_ok_inv hePI],
    by rw [entShape_ok_inv hePV],
    by rw [entShape_ok_inv heSI],
    by rw [entShape_ok_inv heSV],
    he1, ?_, ?_, hf1, ?_, ?_⟩
  · rw [he2, (tupleIdx_ok_inv htPV).2]
  · rw [he3, (tupleIdx_ok_inv htPI).2]
  · rw [hf2, (tupleIdx_ok_inv htSI).2]
  · rw [hf3, (tupleIdx_ok_inv htSV).2]

theorem c7_witness :
    check_if_main ⟨true, [2, 3], true, true,
        some (.dset [2]), some (.dset [2]), some (.dset [1, 3]), some (.dset [1, 3])⟩
      = .ok true ∧
    (⟨true, [2, 3], true, true, some (.dset [2]), some (.dset [2]), some (.dset [1, 3]),
        some (.dset [1, 3])⟩ : MainCand).isDset = true ∧
    (⟨true, [2, 3], true, true, some (.dset [2]), some (.dset [2]), some (.dset [1, 3]),
        some (.dset [1, 3])⟩ : MainCand).shape.length = 2 ∧
    (⟨true, [2, 3], true, true, some (.dset [2]), some (.dset [2]), some (.dset [1, 3]),
        some (.dset [1, 3])⟩ : MainCand).hasQuantity = true ∧
    (⟨true, [2, 3], true, true, some (.dset [2]), some (.dset [2]), some (.dset [1, 3]),
        some (.dset [1, 3])⟩ : MainCand).hasUnits = true ∧
    ∃ shPI shPV shSI shSV,
      (⟨true, [2, 3], true, true, some (.dset [2]), some (.dset [2]), some (.dset [1, 3]),
          some (.dset [1, 3])⟩ : MainCand).posInds = some (.dset shPI) ∧
      (⟨true, [2, 3], true, true, some (.dset [2]), some (.dset [2]), some (.dset [1, 3]),
          some (.dset [1, 3])⟩ : MainCand).posVals = some (.dset shPV) ∧
      (⟨true, [2, 3], true, true, some (.dset [2]), some (.dset [2]), some (.dset [1, 3]),
          some (.dset [1, 3])⟩ : MainCand).specInds = some (.dset shSI) ∧
      (⟨true, [2, 3], true, true, some (.dset [2]), some (.dset [2]), some (.dset [1, 3]),
          some (.dset [1, 3])⟩ : MainCand).specVals = some (.dset shSV) ∧
      shPV = shPI ∧
      (⟨true, [2, 3], true, true, some (.dset [2]), some (.dset [2]), some (.dset [1, 3]),
          some (.dset [1, 3])⟩ : MainCand).shape.getD 0 0 = shPV.getD 0 0 ∧
      (⟨true, [2, 3], true, true, some (.dset [2]), some (.dset [2]), some (.dset [1, 3]),
          some (.dset [1, 3])⟩ : MainCand).shape.getD 0 0 = shPI.getD 0 0 ∧
      shSI = shSV ∧
      (⟨true, [2, 3], true, true, some (.dset [2]), some (.dset [2]), some (.dset [1, 3]),
          some (.dset [1, 3])⟩ : MainCand).shape.getD 1 0 = shSI.getD 1 0 ∧
      (⟨true, [2, 3], true, true, some (.dset [2]), some (.dset [2]), some (.dset [1, 3]),
          some (.dset [1, 3])⟩ : MainCand).shape.getD 1 0 = shSV.getD 1 0 :=
  ⟨by decide, c7_main_check_only_if _ (by decide)⟩

/-- C8 as stated fails on the code: for a 2-D dataset with all four links
resolvable, 'quantity'/'units' present, 1-D Position ancillaries that PASS the
position checks, and 1-D Spectroscopic ancillaries, the spectroscopic section
evaluates `anc_dset.shape[1]` on a length-1 shape tuple and raises IndexError
instead of returning False. -/
theorem c8_raises_on_1d_spec_ancillary :
    check_if_main ⟨true, [2, 3], true, true,
        some (.dset [2]), some (.dset [2]), some (.dset [3]), some (.dset [3])⟩
      = .error "IndexError: tuple index out of range" := by decide

/-! ### write_reduced_anc_dsets (hdf_utils.py lines 1843-2004)

Embedded on its in-memory core: the reduced index/value matrices and the
'labels'/'units' attribute arrays written to the two new datasets.  Store-side
effects (dataset naming, the name-collision KeyError on the parent group, and
region references) are outside the embedding.  Value entries are modelled as
integers; the dropped-all-dimensions branch writes the literal matrix [[0]]
for both outputs. -/

structure ReducedAnc where
  inds : Mat
  vals : List (List Int)
  labels : List String
  units : List String
deriving DecidableEq, Repr

/-- `np.min` over one matrix row (rows of a numpy 2-D array are non-empty). -/
def rowMin (row : List Nat) : Nat := row.min?.getD 0

def write_reduced_anc_dsets (ind_mat : Mat) (val_mat : List (List Int))
    (all_dim_names all_dim_units : List String) (dim_name : List String)
    (is_spec : Option Bool) : Except String ReducedAnc :=
  if ¬ (∀ n ∈ dim_name, n ∈ all_dim_names) then
    .error "KeyError: requested dimension not in the list of labels"
  else
    (match is_spec with
      | some b => .ok b
      | none =>
          if nrows ind_mat = ncols ind_mat then
            .error "ValueError: unable to automatically guess whether the provided datasets are position or spectroscopic"
          else .ok (decide (nrows ind_mat < ncols ind_mat))
      : Except String Bool).bind fun isSpec =>
    if hset : ¬ ((∀ x ∈ dim_name, x ∈ all_dim_names) ∧ (∀ x ∈ all_dim_names, x ∈ dim_name)) then
      -- at least one dimension remains
      let im := if isSpec then ind_mat else transposeM ind_mat
      let vm := if isSpec then val_mat else transposeM val_mat
      let keep : Nat → Bool := fun j =>
        decide (¬ ∃ cur ∈ dim_name, all_dim_names.indexOf cur = j)
      let step_starts : Nat → Bool := fun c =>
        decide (∀ cur ∈ dim_name,
          (im.getD (all_dim_names.indexOf cur) []).getD c 0
            = rowMin (im.getD (all_dim_names.indexOf cur) []))
      let keepIdx := (List.range all_dim_names.length).filter keep
      let colIdx := (List.range (ncols im)).filter step_starts
      let im2 := keepIdx.map (fun j => colIdx.map (fun c => (im.getD j []).getD c 0))
      let vm2 := keepIdx.map (fun j => colIdx.map (fun c => (vm.getD j []).getD c 0))
      .ok ⟨if isSpec then im2 else transposeM im2,
        if isSpec then vm2 else transposeM vm2,
        keepIdx.map (fun j => all_dim_names.getD j ""),
        keepIdx.map (fun j => all_dim_units.getD j "")⟩
    else
      -- every dimension dropped: collapse to the 1x1 Single_Step pair
      .ok ⟨[[0]], [[0]], ["Single_Step"], ["a. u."]⟩

/-- C9: when the set of dimensions to drop covers every dimension, the reduced
indices and values are each exactly the 1x1 matrix `[[0]]`, labelled
'Single_Step' with unit 'a. u.', regardless of the input matrices. -/
theorem c9_drop_all_single_step (ind_mat : Mat) (val_mat : List (List Int))
    (all_dim_names all_dim_units : List String) (dim_name : List String) (b : Bool)
    (hvalid : ∀ n ∈ dim_name, n ∈ all_dim_names)
    (hcover : ∀ x ∈ all_dim_names, x ∈ dim_name) :
    write_reduced_anc_dsets ind_mat val_mat all_dim_names all_dim_units dim_name (some b)
      = .ok ⟨[[0]], [[0]], ["Single_Step"], ["a. u."]⟩ := by
  unfold write_reduced_anc_dsets
  rw [if_neg (by simpa using hvalid)]
  rw [show (match (some b : Option Bool) with
      | some b => .ok b
      | none =>
          if nrows ind_mat = ncols ind_mat then
            .error "ValueError: unable to automatically guess whether the provided datasets are position or spectroscopic"
          else .ok (decide (nrows ind_mat < ncols ind_mat))
      : Except String Bool) = .ok b from rfl, except_bind_ok]
  rw [dif_neg (show ¬ ¬ ((∀ x ∈ dim_name, x ∈ all_dim_names)
      ∧ (∀ x ∈ all_dim_names, x ∈ dim_name)) from not_not.mpr ⟨hvalid, hcover⟩)]

theorem c9_witness :
    ((∀ n ∈ ["Y", "X"], n ∈ ["X", "Y"]) ∧ (∀ x ∈ ["X", "Y"], x ∈ ["Y", "X"])) ∧
    write_reduced_anc_dsets [[0, 1, 0, 1], [0, 0, 1, 1]]
        [[0, 5, 0, 5], [7, 7, 9, 9]] ["X", "Y"] ["V", "A"] ["Y", "X"] (some true)
      = .ok ⟨[[0]], [[0]], ["Single_Step"], ["a. u."]⟩ :=
  ⟨⟨by decide, by decide⟩,
    c9_drop_all_single_step [[0, 1, 0, 1], [0, 0, 1, 1]] [[0, 5, 0, 5], [7, 7, 9, 9]]
      ["X", "Y"] ["V", "A"] ["Y", "X"] true (by decide) (by decide)⟩

/-! ### get_unit_values (hdf_utils.py lines 1450-1644)

Embedded on the numpy-array path: `ds_inds`/`ds_vals` given as arrays with
`all_dim_names` supplied and `dim_names=None` (return every dimension).  The
`incomplete_dimensions` refusal only runs for h5py.Dataset inputs (line 1512)
and so is skipped on this path, exactly as in the source. -/

/-- `np.diff` of a strictly increasing list of naturals (the `starts`
positions produced by `np.where` are always strictly increasing). -/
def diffsL : List Nat → List Nat
  | a :: b :: t => (b - a) :: diffsL (b :: t)
  | _ => []

/-- Steps 1-5 of the unit-value extraction, for one dimension row of the
(spectroscopic-oriented) index matrix and its value row. -/
def unitValuesRow {α : Type} [Inhabited α] (inds_row : List Nat) (vals_row : List α) :
    Except String (List α) :=
  match inds_row.min? with
  | none => .error "ValueError: zero-size array to reduction operation"
  | some mn =>
    let N := inds_row.length
    let starts := (List.range N).filter (fun c => decide (inds_row.getD c 0 = mn))
    let step_sizes := 1 :: diffsL starts
    if ((step_sizes.dedup).filter (fun x => decide (x ≠ 1))).length > 1 then
      .error "ValueError: non constant step sizes"
    else
      let tjp := (List.range step_sizes.length).filter
        (fun i => decide (step_sizes.getD i 0 > 1))
      (if tjp = [] then
        .ok (0, N)
      else
        let tile_starts := 0 :: (tjp.map (fun i => starts.getD i 0) ++ [N])
        let subsections := (List.range (tile_starts.length - 1)).map
          (fun k => ((inds_row.drop (tile_starts.getD k 0)).take
            (tile_starts.getD (k + 1) 0 - tile_starts.getD k 0)))
        if ¬ (∀ t ∈ subsections, t.length = (subsections.headD []).length) then
          .error "ValueError: ragged tiles"
        else
          match (((subsections.zip subsections.tail).map
              (fun pr => List.zipWith (fun x y => (y : Int) - (x : Int)) pr.1 pr.2)).flatten).max? with
          | none => .error "ValueError: zero-size array to reduction operation"
          | some mx =>
            if mx ≠ 0 then .error "ValueError: values in each tile are different"
            else .ok (tile_starts.getD 0 0, tile_starts.getD 1 0)
        : Except String (Nat × Nat)).bind fun se =>
      let subsection := (inds_row.drop se.1).take (se.2 - se.1)
      let dffs : List Int := (subsection.zip subsection.tail).map
        (fun pr => (pr.2 : Int) - (pr.1 : Int))
      let marked : List Int := 0 :: dffs
      let wherePos := (List.range marked.length).filter (fun j => decide (marked.getD j 0 ≠ 0))
      let step_inds := 0 :: wherePos
      .ok (step_inds.map (fun j => vals_row.getD j default))

/-- The per-dimension loop: `np.where(all_dim_names == dim_name)[0][0]` is the
first matching label position; results accumulate in loop (dict insertion)
order. -/
def guvLoop {α : Type} [Inhabited α] (inds_mat : Mat) (vals_mat : List (List α))
    (allNames : List String) : List String → Except String (List (String × List α))
  | [] => .ok []
  | name :: rest =>
    (unitValuesRow (inds_mat.getD (allNames.indexOf name) [])
        (vals_mat.getD (allNames.indexOf name) [])).bind fun uv =>
    (guvLoop inds_mat vals_mat allNames rest).bind fun acc =>
    .ok ((name, uv) :: acc)

/-- `get_unit_values(ds_inds, ds_vals, all_dim_names=...)` on numpy arrays,
returning the unit values of every dimension. -/
def get_unit_values {α : Type} [Inhabited α] (ds_inds : Mat) (ds_vals : List (List α))
    (all_dim_names : List String) (is_spec : Option Bool) :
    Except String (List (String × List α)) :=
  if ¬ (nrows ds_inds = nrows ds_vals ∧ ncols ds_inds = ncols ds_vals) then
    .error "ValueError: h5_inds and h5_vals should have the same shapes"
  else
    (match is_spec with
      | some b => .ok b
      | none => .ok (decide (nrows ds_inds < ncols ds_inds))
      : Except String Bool).bind fun isSpec =>
    let inds_mat := if isSpec then ds_inds else transposeM ds_inds
    let vals_mat := if isSpec then ds_vals else transposeM ds_vals
    if all_dim_names.length ≠ inds_mat.length then
      .error "ValueError: length of dimension names list not matching with shape of dataset"
    else
      guvLoop inds_mat vals_mat all_dim_names all_dim_names

example :
    unitValuesRow [0, 1, 2, 0, 1, 2] ([10, 20, 30, 10, 20, 30] : List Nat)
      = .ok [10, 20, 30] := by decide

example :
    unitValuesRow [0, 0, 1, 1, 0, 0, 1, 1] ([5, 5, 8, 8, 5, 5, 8, 8] : List Nat)
      = .ok [5, 8] := by decide

example :
    unitValuesRow [0, 1, 0, 1, 1, 0, 1, 1, 1, 0] ([0, 1, 0, 1, 1, 0, 1, 1, 1, 0] : List Nat)
      = .error "ValueError: non constant step sizes" := by decide

example :
    get_unit_values [[0, 1, 0, 1], [0, 0, 1, 1]] ([[2, 4, 2, 4], [6, 6, 7, 7]] : List (List Nat))
      ["Bias", "Cycle"] none
      = .ok [("Bias", [2, 4]), ("Cycle", [6, 7])] := by decide

/-! ### Claim C6: irregular dimensions are refused -/

/-- The candidate tile starts of one row: every position holding the row
minimum. -/
def rowStarts (row : List Nat) : List Nat :=
  (List.range row.length).filter (fun c => decide (row.getD c 0 = rowMin row))

theorem length_filter_ne_dedup_cons1 (l : List Nat) :
    (((1 :: l).dedup).filter (fun x => decide (x ≠ 1))).length
      = ((l.dedup).filter (fun x => decide (x ≠ 1))).length := by
  by_cases h : 1 ∈ l
  · rw [List.dedup_cons_of_mem h]
  · rw [List.dedup_cons_of_not_mem h]
    simp

theorem unitValuesRow_gap_error {α : Type} [Inhabited α] (row : List Nat) (v : List α)
    (hg : ((diffsL (rowStarts row)).dedup.filter (fun x => decide (x ≠ 1))).length > 1) :
    ∃ e, unitValuesRow row v = .error e := by
  unfold unitValuesRow
  rcases hmn : row.min? with _ | mn
  · exact ⟨_, rfl⟩
  · have hmn' : mn = rowMin row := by rw [rowMin, hmn]; rfl
    have hcond : ((1 :: diffsL ((List.range row.length).filter
        (fun c => decide (row.getD c 0 = mn)))).dedup.filter
        (fun x => decide (x ≠ 1))).length > 1 := by
      rw [hmn']
      rw [length_filter_ne_dedup_cons1]
      exact hg
    dsimp only
    rw [if_pos hcond]
    exact ⟨_, rfl⟩

theorem guvLoop_ok_forall {α : Type} [Inhabited α] (inds_mat : Mat)
    (vals_mat : List (List α)) (allNames : List String) (names : List String)
    (l : List (String × List α)) (h : guvLoop inds_mat vals_mat allNames names = .ok l) :
    ∀ name ∈ names, ∃ uv, unitValuesRow (inds_mat.getD (allNames.indexOf name) [])
      (vals_mat.getD (allNames.indexOf name) []) = .ok uv := by
  induction names generalizing l with
  | nil => intro name hn; exact absurd hn (List.not_mem_nil name)
  | cons a rest ih =>
    unfold guvLoop at h
    obtain ⟨uv, huv, h⟩ := bind_ok_inv h
    obtain ⟨acc, hacc, _⟩ := bind_ok_inv h
    intro name hn
    rcases List.mem_cons.mp hn with hna | hnr
    · exact ⟨uv, hna ▸ huv⟩
    · exact ih acc hacc name hnr

/-- C6: if any dimension row of the (spectroscopic-oriented) index matrix has
gaps between consecutive row-minimum positions with more than two distinct
magnitudes ignoring 1, `get_unit_values` fails with an error rather than
returning a guessed unit-value dictionary. -/
theorem c6_irregular_dimension_errors {α : Type} [Inhabited α] (ds_inds : Mat)
    (ds_vals : List (List α)) (all_dim_names : List String) (name : String)
    (hmem : name ∈ all_dim_names)
    (hgaps : ((diffsL (rowStarts (ds_inds.getD (all_dim_names.indexOf name) []))).dedup.filter
      (fun x => decide (x ≠ 1))).length > 2) :
    ∃ e, get_unit_values ds_inds ds_vals all_dim_names (some true) = .error e := by
  rcases hres : get_unit_values ds_inds ds_vals all_dim_names (some true) with e | l
  · exact ⟨e, rfl⟩
  · exfalso
    unfold get_unit_values at hres
    by_cases h1 : ¬ (nrows ds_inds = nrows ds_vals ∧ ncols ds_inds = ncols ds_vals)
    · rw [if_pos h1] at hres
      exact absurd hres (by simp)
    · rw [if_neg h1, except_bind_ok] at hres
      by_cases h2 : all_dim_names.length ≠ (if true then ds_inds else transposeM ds_inds).length
      · rw [if_pos h2] at hres
        exact absurd hres (by simp)
      · rw [if_neg h2] at hres
        have hforall := guvLoop_ok_forall _ _ _ _ l hres name hmem
        obtain ⟨uv, huv⟩ := hforall
        obtain ⟨e, he⟩ := unitValuesRow_gap_error
          ((if true then ds_inds else transposeM ds_inds).getD (all_dim_names.indexOf name) [])
          ((if true then ds_vals else transposeM ds_vals).getD (all_dim_names.indexOf name) [])
          (by simpa using Nat.lt_of_lt_of_le (by omega) (Nat.le_of_lt hgaps))
        rw [huv] at he
        exact absurd he (by simp)

theorem c6_witness :
    ("X" ∈ ["X"] ∧
      ((diffsL (rowStarts (([[ 0, 1, 0, 1, 1, 0, 1, 1, 1, 0]] : Mat).getD
        (["X"].indexOf "X") []))).dedup.filter (fun x => decide (x ≠ 1))).length > 2) ∧
    ∃ e, get_unit_values [[0, 1, 0, 1, 1, 0, 1, 1, 1, 0]]
      ([[0, 1, 0, 1, 1, 0, 1, 1, 1, 0]] : List (List Nat)) ["X"] (some true) = .error e :=
  ⟨⟨by decide, by decide⟩,
    c6_irregular_dimension_errors [[0, 1, 0, 1, 1, 0, 1, 1, 1, 0]]
      ([[0, 1, 0, 1, 1, 0, 1, 1, 1, 0]] : List (List Nat)) ["X"] "X" (by decide) (by decide)⟩

/-! ### Claim C5: Cartesian tiling round-trips through get_unit_values -/

theorem repeatEach_length {α : Type} (P : Nat) (xs : List α) :
    (repeatEach P xs).length = P * xs.length := by
  induction xs with
  | nil => simp [repeatEach]
  | cons x t ih =>
    simp only [repeatEach, List.flatMap_cons] at ih ⊢
    simp [ih, Nat.mul_succ, Nat.mul_add, Nat.mul_one]
    ring

theorem tileList_length {α : Type} (Q : Nat) (xs : List α) :
    (tileList Q xs).length = Q * xs.length := by
  induction Q with
  | zero => simp [tileList]
  | succ q ih =>
    simp only [tileList, List.replicate_succ, List.flatten_cons] at ih ⊢
    simp [ih, Nat.succ_mul, Nat.add_comm]

theorem repeatEach_getD {α : Type} (P : Nat) (xs : List α) (r : Nat) (d : α)
    (hP : 1 ≤ P) (hr : r < P * xs.length) :
    (repeatEach P xs).getD r d = xs.getD (r / P) d := by
  induction xs generalizing r with
  | nil => simp at hr
  | cons x t ih =>
    simp only [repeatEach, List.flatMap_cons]
    by_cases hrP : r < P
    · rw [List.getD_append _ _ d r (by simpa using hrP), Nat.div_eq_of_lt hrP]
      have hrep : (List.replicate P x).getD r d = x := by
        rw [List.getD_eq_getElem _ d (by simpa using hrP)]
        exact List.getElem_replicate _ _
      rw [hrep]
      rfl
    · have hge : (List.replicate P x).length ≤ r := by simpa using Nat.le_of_not_lt hrP
      rw [List.getD_append_right _ _ d r hge]
      simp only [List.length_replicate]
      have hr' : r - P < P * t.length := by
        simp only [List.length_cons, Nat.mul_succ] at hr
        omega
      rw [show (repeatEach P t : List α) = t.flatMap (List.replicate P) from rfl] at ih
      rw [ih (r - P) hr']
      have hdiv : r / P = (r - P) / P + 1 := by
        have hreq : r = (r - P) + P := by omega
        conv_lhs => rw [hreq]
        rw [Nat.add_div_right _ (by omega)]
      rw [hdiv, List.getD_cons_succ]

theorem tileList_getD {α : Type} (Q : Nat) (xs : List α) (c : Nat) (d : α)
    (hc : c < Q * xs.length) :
    (tileList Q xs).getD c d = xs.getD (c % xs.length) d := by
  induction Q generalizing c with
  | zero => simp at hc
  | succ q ih =>
    simp only [tileList, List.replicate_succ, List.flatten_cons]
    by_cases hcx : c < xs.length
    · rw [List.getD_append _ _ d c hcx, Nat.mod_eq_of_lt hcx]
    · have hlen : 0 < xs.length := by
        rcases Nat.eq_zero_or_pos xs.length with h0 | h0
        · rw [h0] at hc; simp at hc
        · exact h0
      have hge : xs.length ≤ c := Nat.le_of_not_lt hcx
      rw [List.getD_append_right _ _ d c hge]
      have hc' : c - xs.length < q * xs.length := by
        simp only [Nat.succ_mul] at hc
        omega
      rw [show ((List.replicate q xs).flatten : List α) = tileList q xs from rfl, ih _ hc']
      have hmodeq : c % xs.length = (c - xs.length) % xs.length := by
        have hreq : c = (c - xs.length) + xs.length := by omega
        conv_lhs => rw [hreq]
        exact Nat.add_mod_right _ _
      rw [hmodeq]

theorem buildRowIdx_length (P L Q : Nat) :
    (buildRowIdx P L Q).length = Q * (P * L) := by
  rw [buildRowIdx, tileList_length, repeatEach_length, List.length_range]

theorem buildRowIdx_getD (P L Q : Nat) (c : Nat) (hP : 1 ≤ P)
    (hc : c < Q * (P * L)) :
    (buildRowIdx P L Q).getD c 0 = (c % (P * L)) / P := by
  have hlen : (repeatEach P (List.range L)).length = P * L := by
    rw [repeatEach_length, List.length_range]
  rw [buildRowIdx, tileList_getD Q _ c 0 (by rw [hlen]; exact hc), hlen]
  have hmod : c % (P * L) < P * L := Nat.mod_lt _ (by
    rcases Nat.eq_zero_or_pos (P * L) with h0 | h0
    · rw [h0] at hc; simp at hc
    · exact h0)
  rw [repeatEach_getD P _ _ 0 hP (by simpa using hmod)]
  have hdl : c % (P * L) / P < L := by
    rcases Nat.eq_zero_or_pos L with h0 | h0
    · subst h0; simp at hc
    · exact Nat.div_lt_of_lt_mul (by rw [Nat.mul_comm] at hmod ⊢; exact hmod)
  rw [List.getD_eq_getElem _ 0 (by simpa using hdl), List.getElem_range]

theorem buildRowVals_length {α : Type} (P : Nat) (ticks : List α) (Q : Nat) :
    (buildRowVals P ticks Q).length = Q * (P * ticks.length) := by
  rw [buildRowVals, tileList_length, repeatEach_length]

theorem buildRowVals_getD {α : Type} [Inhabited α] (P : Nat) (ticks : List α) (Q : Nat)
    (c : Nat) (hP : 1 ≤ P) (hc : c < Q * (P * ticks.length)) :
    (buildRowVals P ticks Q).getD c default
      = ticks.getD ((c % (P * ticks.length)) / P) default := by
  have hlen : (repeatEach P ticks).length = P * ticks.length := repeatEach_length P ticks
  rw [buildRowVals, tileList_getD Q _ c default (by rw [hlen]; exact hc), hlen]
  have hmod : c % (P * ticks.length) < P * ticks.length := Nat.mod_lt _ (by
    rcases Nat.eq_zero_or_pos (P * ticks.length) with h0 | h0
    · rw [h0] at hc; simp at hc
    · exact h0)
  rw [repeatEach_getD P _ _ default hP (by simpa using hmod)]

theorem buildRowIdx_min (P L Q : Nat) (hP : 1 ≤ P) (hL : 1 ≤ L) (hQ : 1 ≤ Q) :
    (buildRowIdx P L Q).min? = some 0 := by
  have hlen : (buildRowIdx P L Q).length = Q * (P * L) := buildRowIdx_length P L Q
  have hpos : 0 < Q * (P * L) := by positivity
  have h0 : (buildRowIdx P L Q).getD 0 0 = 0 := by
    rw [buildRowIdx_getD P L Q 0 hP hpos]
    simp
  have hmem : 0 ∈ buildRowIdx P L Q := by
    have hlt : 0 < (buildRowIdx P L Q).length := by rw [hlen]; exact hpos
    have := List.getD_eq_getElem (buildRowIdx P L Q) 0 hlt
    rw [h0] at this
    rw [this]
    exact List.getElem_mem hlt
  have hiff : (buildRowIdx P L Q).min? = some 0 ↔
      0 ∈ buildRowIdx P L Q ∧ ∀ b ∈ buildRowIdx P L Q, 0 ≤ b :=
    List.min?_eq_some_iff (α := Nat)
      (fun a => Nat.le_refl a)
      (fun a b => by
        rcases Nat.le_total a b with h | h
        · exact Or.inl (Nat.min_eq_left h)
        · exact Or.inr (Nat.min_eq_right h))
      (fun a b c => Nat.le_min)
  rw [hiff]
  exact ⟨hmem, fun b _ => Nat.zero_le b⟩

theorem filter_range_lt (n P : Nat) (h : P ≤ n) :
    (List.range n).filter (fun c => decide (c < P)) = List.range P := by
  induction n with
  | zero =>
    have : P = 0 := by omega
    simp [this]
  | succ m ih =>
    rw [List.range_succ, List.filter_append]
    by_cases hPm : P ≤ m
    · rw [ih hPm]
      have : ¬ m < P := by omega
      simp [this]
    · have hPe : P = m + 1 := by omega
      subst hPe
      have h1 : (List.range m).filter (fun c => decide (c < m + 1)) = List.range m :=
        List.filter_eq_self.mpr (fun c hc => by
          simpa using Nat.lt_succ_of_lt (List.mem_range.mp hc))
      have h2 : ([m] : List Nat).filter (fun c => decide (c < m + 1)) = [m] := by simp
      rw [h1, h2, ← List.range_succ]

theorem filter_range_mul (Q B : Nat) (p : Nat → Bool)
    (hp : ∀ q c, q < Q → c < B → p (q * B + c) = p c) :
    (List.range (Q * B)).filter p
      = (List.range Q).flatMap (fun q => ((List.range B).filter p).map (q * B + ·)) := by
  induction Q with
  | zero => simp
  | succ m ih =>
    have hmul : (m + 1) * B = m * B + B := by ring
    rw [hmul, List.range_add, List.filter_append,
      ih (fun q c hq hc => hp q c (by omega) hc),
      List.range_succ, List.flatMap_append, List.flatMap_cons, List.flatMap_nil,
      List.append_nil, List.filter_map]
    congr 1
    exact congrArg _ (List.filter_congr
      (fun c hc => hp m c (by omega) (List.mem_range.mp hc)))

/-- The tile-start positions of a Cartesian-tiled row: `P` consecutive
positions at the beginning of each of the `Q` periods of length `B`. -/
def cartStarts (P B Q : Nat) : List Nat :=
  (List.range Q).flatMap (fun q => (List.range P).map (q * B + ·))

theorem cartStarts_zero (P B : Nat) : cartStarts P B 0 = [] := by simp [cartStarts]

theorem cartStarts_succ (P B Q : Nat) :
    cartStarts P B (Q + 1) = List.range P ++ (cartStarts P B Q).map (B + ·) := by
  unfold cartStarts
  rw [List.range_succ_eq_map, List.flatMap_cons]
  congr 1
  · simp
  · rw [List.flatMap_map, List.map_flatMap]
    refine List.flatMap_congr (fun q _ => ?_)
    rw [List.map_map]
    refine List.map_congr_left (fun c _ => ?_)
    simp only [Function.comp]
    rw [Nat.succ_mul]
    ring

theorem cartStarts_length (P B Q : Nat) : (cartStarts P B Q).length = Q * P := by
  induction Q with
  | zero => simp [cartStarts]
  | succ m ih =>
    rw [cartStarts_succ, List.length_append, List.length_map, ih, List.length_range]
    ring

theorem cartStarts_getD (P B Q : Nat) (m : Nat) (hP : 1 ≤ P) (hm : m < Q * P) :
    (cartStarts P B Q).getD m 0 = (m / P) * B + m % P := by
  induction Q generalizing m with
  | zero => simp at hm
  | succ q ih =>
    rw [cartStarts_succ]
    by_cases hmP : m < P
    · rw [List.getD_append _ _ 0 m (by simpa using hmP),
        List.getD_eq_getElem _ 0 (by simpa using hmP), List.getElem_range,
        Nat.div_eq_of_lt hmP, Nat.mod_eq_of_lt hmP]
      simp
    · have hge : (List.range P).length ≤ m := by simpa using Nat.le_of_not_lt hmP
      rw [List.getD_append_right _ _ 0 m hge, List.length_range]
      have hm' : m - P < q * P := by
        have : m < (q + 1) * P := hm
        have h1 : (q + 1) * P = q * P + P := by ring
        omega
      have hmap : ((cartStarts P B q).map (B + ·)).getD (m - P) 0
          = B + (cartStarts P B q).getD (m - P) 0 := by
        have hlt : m - P < (cartStarts P B q).length := by
          rw [cartStarts_length]; exact hm'
        rw [List.getD_eq_getElem _ 0 (by simpa using hlt), List.getElem_map,
          List.getD_eq_getElem _ 0 hlt]
      rw [hmap, ih _ hm']
      have hreq : m = (m - P) + P := by omega
      have hdiv : m / P = (m - P) / P + 1 := by
        conv_lhs => rw [hreq]
        rw [Nat.add_div_right _ (by omega)]
      have hmod : m % P = (m - P) % P := by
        conv_lhs => rw [hreq]
        exact Nat.add_mod_right _ _
      rw [hdiv, hmod]
      ring

theorem cartStarts_ne_nil (P B Q : Nat) (hP : 1 ≤ P) (hQ : 1 ≤ Q) :
    cartStarts P B Q ≠ [] := by
  intro hc
  have := cartStarts_length P B Q
  rw [hc] at this
  simp at this
  omega

theorem cartStarts_headD (P B Q : Nat) (hP : 1 ≤ P) (hQ : 1 ≤ Q) :
    (cartStarts P B Q).headD 0 = 0 := by
  obtain ⟨q, hq⟩ : ∃ q, Q = q + 1 := ⟨Q - 1, by omega⟩
  subst hq
  rw [cartStarts_succ]
  obtain ⟨r, hr⟩ : ∃ r, P = r + 1 := ⟨P - 1, by omega⟩
  subst hr
  rw [List.range_succ_eq_map]
  rfl

/-- The starts of a built row: exactly the Cartesian tile-start pattern. -/
theorem starts_buildRowIdx (P L Q : Nat) (hP : 1 ≤ P) (hL : 1 ≤ L) (hQ : 1 ≤ Q) :
    (List.range (buildRowIdx P L Q).length).filter
      (fun c => decide ((buildRowIdx P L Q).getD c 0 = 0))
      = cartStarts P (P * L) Q := by
  rw [buildRowIdx_length]
  have hcong : ∀ q c, q < Q → c < P * L →
      (fun c => decide ((buildRowIdx P L Q).getD c 0 = 0)) (q * (P * L) + c)
        = (fun c => decide ((buildRowIdx P L Q).getD c 0 = 0)) c := by
    intro q c hq hc
    have hc1 : q * (P * L) + c < Q * (P * L) := by
      have h1 : q + 1 ≤ Q := hq
      calc q * (P * L) + c < q * (P * L) + P * L := by omega
      _ = (q + 1) * (P * L) := by ring
      _ ≤ Q * (P * L) := Nat.mul_le_mul_right _ h1
    have hc2 : c < Q * (P * L) := by
      calc c < P * L := hc
      _ = 1 * (P * L) := by ring
      _ ≤ Q * (P * L) := Nat.mul_le_mul_right _ hQ
    show decide ((buildRowIdx P L Q).getD (q * (P * L) + c) 0 = 0)
      = decide ((buildRowIdx P L Q).getD c 0 = 0)
    rw [buildRowIdx_getD P L Q _ hP hc1, buildRowIdx_getD P L Q _ hP hc2]
    have hmodeq : (q * (P * L) + c) % (P * L) = c % (P * L) := by
      rw [Nat.mul_comm q (P * L), Nat.mul_add_mod]
    rw [hmodeq]
  rw [filter_range_mul Q (P * L) _ hcong]
  unfold cartStarts
  refine List.flatMap_congr (fun q _ => ?_)
  congr 1
  have hstep1 : (List.range (P * L)).filter
      (fun c => decide ((buildRowIdx P L Q).getD c 0 = 0))
      = (List.range (P * L)).filter (fun c => decide (c < P)) := by
    refine List.filter_congr (fun c hc => ?_)
    have hcB : c < P * L := List.mem_range.mp hc
    have hcQ : c < Q * (P * L) := by
      calc c < P * L := hcB
      _ = 1 * (P * L) := by ring
      _ ≤ Q * (P * L) := Nat.mul_le_mul_right _ hQ
    show decide ((buildRowIdx P L Q).getD c 0 = 0) = decide (c < P)
    rw [buildRowIdx_getD P L Q _ hP hcQ, Nat.mod_eq_of_lt hcB]
    have : c / P = 0 ↔ c < P := Nat.div_eq_zero_iff (by omega)
    rw [decide_eq_decide]
    exact this
  rw [hstep1, filter_range_lt _ _ (Nat.le_mul_of_pos_right P (by omega))]

theorem diffsL_map_add (a : Nat) : ∀ xs : List Nat, diffsL (xs.map (a + ·)) = diffsL xs
  | [] => rfl
  | [_] => rfl
  | x :: y :: t => by
    simp only [List.map_cons, diffsL]
    have htail : diffsL ((a + y) :: t.map (a + ·)) = diffsL (y :: t) := by
      have := diffsL_map_add a (y :: t)
      simpa using this
    rw [htail]
    congr 1
    omega

theorem diffsL_append_cons (b : Nat) (t : List Nat) :
    ∀ A : List Nat, A ≠ [] →
      diffsL (A ++ b :: t) = diffsL A ++ (b - A.getLastD 0) :: diffsL (b :: t)
  | [], h => absurd rfl h
  | [x], _ => by simp [diffsL, List.getLastD]
  | x :: y :: rest, _ => by
    rw [show ((x :: y :: rest) ++ b :: t : List Nat) = x :: ((y :: rest) ++ b :: t) from rfl]
    rw [show ((y :: rest) ++ b :: t : List Nat) = y :: (rest ++ b :: t) from rfl]
    rw [show (diffsL (x :: y :: (rest ++ b :: t)) : List Nat)
      = (y - x) :: diffsL (y :: (rest ++ b :: t)) from rfl]
    rw [show (y :: (rest ++ b :: t) : List Nat) = (y :: rest) ++ b :: t from rfl]
    rw [diffsL_append_cons b t (y :: rest) (by simp)]
    rfl

theorem diffsL_range (P : Nat) : diffsL (List.range P) = List.replicate (P - 1) 1 := by
  induction P with
  | zero => rfl
  | succ m ih =>
    rcases Nat.eq_zero_or_pos m with h0 | h0
    · subst h0; rfl
    · rw [List.range_succ, diffsL_append_cons m [] (List.range m)
        (by simp; omega), ih]
      have hlast : (List.range m).getLastD 0 = m - 1 := by
        obtain ⟨k, hk⟩ : ∃ k, m = k + 1 := ⟨m - 1, by omega⟩
        rw [hk, List.range_succ, List.getLastD_concat]
        omega
      rw [hlast]
      have : m - (m - 1) = 1 := by omega
      rw [this]
      show List.replicate (m - 1) 1 ++ [1] = List.replicate m 1
      rw [← List.replicate_succ' (m - 1) 1]
      congr 1
      omega

/-- The gap pattern of a regular tiled dimension: `Q - 1` blocks of `P - 1`
unit steps followed by one jump of `B - P + 1`, closing with `P - 1` unit
steps. -/
def gapsPat (P B Q : Nat) : List Nat :=
  (List.replicate (Q - 1) (List.replicate (P - 1) 1 ++ [B - P + 1])).flatten
    ++ List.replicate (P - 1) 1

theorem diffsL_cartStarts (P B Q : Nat) (hP : 1 ≤ P) (hB : P ≤ B) (hQ : 1 ≤ Q) :
    diffsL (cartStarts P B Q) = gapsPat P B Q := by
  induction Q with
  | zero => omega
  | succ q ih =>
    rcases Nat.eq_zero_or_pos q with h0 | h0
    · subst h0
      rw [cartStarts_succ, cartStarts_zero]
      simp only [List.map_nil, List.append_nil]
      rw [diffsL_range]
      simp [gapsPat]
    · rw [cartStarts_succ]
      have hne : cartStarts P B q ≠ [] := cartStarts_ne_nil P B q hP h0
      obtain ⟨hd, tl, hht⟩ : ∃ hd tl, (cartStarts P B q).map (B + ·) = hd :: tl := by
        rcases hm : (cartStarts P B q).map (B + ·) with _ | ⟨hd, tl⟩
        · exact absurd (List.map_eq_nil_iff.mp hm) hne
        · exact ⟨hd, tl, rfl⟩
      have hhd : hd = B := by
        have h1 : ((cartStarts P B q).map (B + ·)).headD 0 = hd := by rw [hht]; rfl
        have h2 : ((cartStarts P B q).map (B + ·)).headD 0
            = B + (cartStarts P B q).headD 0 := by
          rcases hcs : cartStarts P B q with _ | ⟨a, r⟩
          · exact absurd hcs hne
          · rfl
        rw [h2, cartStarts_headD P B q hP h0] at h1
        omega
      rw [hht, diffsL_append_cons hd tl (List.range P) (by
        intro hc
        rw [List.range_eq_nil] at hc
        omega)]
      have hlast : (List.range P).getLastD 0 = P - 1 := by
        obtain ⟨k, hk⟩ : ∃ k, P = k + 1 := ⟨P - 1, by omega⟩
        rw [hk, List.range_succ, List.getLastD_concat]
        omega
      rw [hlast, diffsL_range, ← hht, diffsL_map_add, ih h0, hhd]
      have hgap : B - (P - 1) = B - P + 1 := by omega
      rw [hgap]
      show List.replicate (P - 1) 1 ++ (B - P + 1) :: gapsPat P B q
        = gapsPat P B (q + 1)
      unfold gapsPat
      have hq1 : q + 1 - 1 = (q - 1) + 1 := by omega
      rw [hq1, List.replicate_succ, List.flatten_cons]
      rw [List.append_assoc, List.append_assoc]
      congr 1

theorem gapsPat_mem (P B Q : Nat) (x : Nat) (hx : x ∈ gapsPat P B Q) :
    x = 1 ∨ x = B - P + 1 := by
  unfold gapsPat at hx
  rcases List.mem_append.mp hx with hx | hx
  · rw [List.mem_flatten] at hx
    obtain ⟨l, hl, hxl⟩ := hx
    rw [List.mem_replicate] at hl
    rw [hl.2] at hxl
    rcases List.mem_append.mp hxl with hx1 | hx1
    · exact Or.inl (List.eq_of_mem_replicate hx1)
    · rcases List.mem_singleton.mp hx1 with rfl
      exact Or.inr rfl
  · exact Or.inl (List.eq_of_mem_replicate hx)

theorem nodup_const_length_le_one {α : Type} (l : List α) (c : α)
    (hnd : l.Nodup) (hc : ∀ x ∈ l, x = c) : l.length ≤ 1 := by
  rcases l with _ | ⟨a, t⟩
  · simp
  · rcases t with _ | ⟨b, r⟩
    · simp
    · exfalso
      have ha : a = c := hc a (by simp)
      have hb : b = c := hc b (by simp)
      rw [List.nodup_cons] at hnd
      exact hnd.1 (by rw [ha, ← hb]; simp)

/-- The non-constant-step-size check passes when every step size is 1 or a
single jump value. -/
theorem stepcheck_le_one (l : List Nat) (J : Nat) (hmem : ∀ x ∈ l, x = 1 ∨ x = J) :
    ((l.dedup).filter (fun x => decide (x ≠ 1))).length ≤ 1 := by
  refine nodup_const_length_le_one _ J ((l.nodup_dedup).filter _) (fun x hx => ?_)
  rw [List.mem_filter] at hx
  obtain ⟨hxd, hxne⟩ := hx
  rcases hmem x (List.mem_dedup.mp hxd) with h1 | hJ
  · exact absurd h1 (by simpa using hxne)
  · exact hJ

/-- Positions of entries exceeding 1 (tile-jump positions). -/
def idxsGt1 (l : List Nat) : List Nat :=
  (List.range l.length).filter (fun i => decide (l.getD i 0 > 1))

theorem idxsGt1_append (A C : List Nat) :
    idxsGt1 (A ++ C) = idxsGt1 A ++ (idxsGt1 C).map (A.length + ·) := by
  unfold idxsGt1
  rw [List.length_append, List.range_add, List.filter_append]
  congr 1
  · refine List.filter_congr (fun i hi => ?_)
    have := List.mem_range.mp hi
    show decide ((A ++ C).getD i 0 > 1) = decide (A.getD i 0 > 1)
    rw [List.getD_append _ _ 0 i this]
  · rw [List.filter_map]
    congr 1
    refine List.filter_congr (fun i hi => ?_)
    have hiC := List.mem_range.mp hi
    show decide ((A ++ C).getD (A.length + i) 0 > 1) = decide (C.getD i 0 > 1)
    rw [List.getD_append_right _ _ 0 _ (by omega), Nat.add_sub_cancel_left]

theorem idxsGt1_all_le (l : List Nat) (h : ∀ x ∈ l, x ≤ 1) : idxsGt1 l = [] := by
  unfold idxsGt1
  rw [List.filter_eq_nil_iff]
  intro i hi
  have hlt := List.mem_range.mp hi
  have : l.getD i 0 ≤ 1 := by
    rw [List.getD_eq_getElem _ 0 hlt]
    exact h _ (List.getElem_mem hlt)
  simpa using this

theorem idxsGt1_replicate_one (m : Nat) : idxsGt1 (List.replicate m 1) = [] :=
  idxsGt1_all_le _ (fun x hx => Nat.le_of_eq (List.eq_of_mem_replicate hx))

theorem idxsGt1_chunk (P J : Nat) (hP : 1 ≤ P) (hJ : J > 1) :
    idxsGt1 (List.replicate (P - 1) 1 ++ [J]) = [P - 1] := by
  rw [idxsGt1_append, idxsGt1_replicate_one]
  have h1 : idxsGt1 [J] = [0] := by
    unfold idxsGt1
    have hr : List.range ([J].length) = [0] := rfl
    rw [hr]
    simp [List.filter_cons, hJ]
  rw [h1]
  simp

theorem idxsGt1_flatten_chunks (P J m : Nat) (hP : 1 ≤ P) (hJ : J > 1) :
    idxsGt1 ((List.replicate m (List.replicate (P - 1) 1 ++ [J])).flatten)
      = (List.range m).map (fun q => q * P + (P - 1)) := by
  induction m with
  | zero => simp [idxsGt1]
  | succ k ih =>
    rw [List.replicate_succ, List.flatten_cons, idxsGt1_append, idxsGt1_chunk P J hP hJ, ih]
    have hlen : (List.replicate (P - 1) 1 ++ [J]).length = P := by
      simp
      omega
    rw [hlen, List.map_map, List.range_succ_eq_map, List.map_cons, List.map_map]
    have h0 : (0 : Nat) * P + (P - 1) = P - 1 := by omega
    rw [h0, List.singleton_append]
    congr 1
    refine List.map_congr_left (fun q _ => ?_)
    simp only [Function.comp_apply]
    rw [Nat.succ_mul]
    omega

theorem tileList_drop_take {α : Type} (Q : Nat) (xs : List α) (k : Nat) (hk : k < Q) :
    ((tileList Q xs).drop (k * xs.length)).take xs.length = xs := by
  induction Q generalizing k with
  | zero => omega
  | succ q ih =>
    have hsplit : tileList (q + 1) xs = xs ++ tileList q xs := rfl
    rw [hsplit]
    rcases k with _ | k
    · rw [Nat.zero_mul, List.drop_zero, List.take_left]
    · have hmul : (k + 1) * xs.length = xs.length + k * xs.length := by ring
      rw [hmul, List.drop_append, ih k (by omega)]

theorem sub_getD (P L m : Nat) (hP : 1 ≤ P) (hm : m < P * L) :
    (repeatEach P (List.range L)).getD m 0 = m / P := by
  rw [repeatEach_getD P _ _ 0 hP (by rw [List.length_range]; exact hm)]
  have hdl : m / P < L := Nat.div_lt_of_lt_mul hm
  rw [List.getD_eq_getElem _ 0 (by simpa using hdl), List.getElem_range]

theorem dffs_length (l : List Nat) :
    ((l.zip l.tail).map (fun pr => ((pr.2 : Int) - (pr.1 : Int)))).length = l.length - 1 := by
  rw [List.length_map, List.length_zip, List.length_tail]
  omega

theorem dffs_getD (l : List Nat) (j : Nat) (hj : j + 1 < l.length) :
    ((l.zip l.tail).map (fun pr => ((pr.2 : Int) - (pr.1 : Int)))).getD j 0
      = (l.getD (j + 1) 0 : Int) - (l.getD j 0 : Int) := by
  have hlen : ((l.zip l.tail).map (fun pr => ((pr.2 : Int) - (pr.1 : Int)))).length
      = l.length - 1 := dffs_length l
  have hjl : j < ((l.zip l.tail).map (fun pr => ((pr.2 : Int) - (pr.1 : Int)))).length := by
    rw [hlen]; omega
  have hjz : j < (l.zip l.tail).length := by
    rw [List.length_zip, List.length_tail]; omega
  have hjt : j < l.tail.length := by rw [List.length_tail]; omega
  rw [List.getD_eq_getElem _ 0 hjl, List.getElem_map, List.getElem_zip,
    List.getD_eq_getElem l 0 hj,
    List.getD_eq_getElem l 0 (show j < l.length by omega)]
  show (l.tail[j] : Int) - (l[j] : Int) = (l[j + 1] : Int) - (l[j] : Int)
  simp only [List.getElem_tail]

theorem div_pred (P j : Nat) (hP : 1 ≤ P) (hj : 1 ≤ j) :
    (j - 1) / P = j / P ↔ ¬ (j % P = 0) := by
  obtain ⟨q, r, hr, hqr⟩ : ∃ q r, r < P ∧ j = P * q + r :=
    ⟨j / P, j % P, Nat.mod_lt _ (by omega), by rw [Nat.div_add_mod]⟩
  have hmod : j % P = r := by rw [hqr, Nat.mul_add_mod]; exact Nat.mod_eq_of_lt hr
  have hdiv : j / P = q := by
    rw [hqr, Nat.mul_add_div (by omega), Nat.div_eq_of_lt hr]
    omega
  rcases Nat.eq_zero_or_pos r with h0 | h0
  · subst h0
    have hq1 : 1 ≤ q := by
      by_contra hq
      have hq0 : q = 0 := by omega
      subst hq0
      simp at hqr
      omega
    obtain ⟨p, rfl⟩ : ∃ p, q = p + 1 := ⟨q - 1, by omega⟩
    have hpred : j - 1 = P * p + (P - 1) := by
      have hx : P * (p + 1) = P * p + P := by ring
      omega
    have hdiv' : (j - 1) / P = p := by
      rw [hpred, Nat.mul_add_div (by omega), Nat.div_eq_of_lt (by omega)]
      omega
    rw [hdiv, hdiv', hmod]
    omega
  · have hpred : j - 1 = P * q + (r - 1) := by omega
    have hdiv' : (j - 1) / P = q := by
      rw [hpred, Nat.mul_add_div (by omega), Nat.div_eq_of_lt (by omega)]
      omega
    rw [hdiv, hdiv', hmod]
    omega

theorem flatMap_single {α β : Type} (g : α → β) : ∀ l : List α,
    l.flatMap (fun x => [g x]) = l.map g
  | [] => rfl
  | a :: t => by
    rw [List.flatMap_cons, List.map_cons, flatMap_single g t]
    rfl

theorem filter_mod_range (P L : Nat) (hP : 1 ≤ P) :
    (List.range (P * L)).filter (fun j => decide (j % P = 0))
      = (List.range L).map (· * P) := by
  rw [Nat.mul_comm P L]
  rw [filter_range_mul L P _ (fun q c hq hc => by
    show decide ((q * P + c) % P = 0) = decide (c % P = 0)
    rw [Nat.mul_comm q P, Nat.mul_add_mod])]
  have hinner : (List.range P).filter (fun j => decide (j % P = 0)) = [0] := by
    have hcong : (List.range P).filter (fun j => decide (j % P = 0))
        = (List.range P).filter (fun j => decide (j < 1)) := by
      refine List.filter_congr (fun c hc => ?_)
      have hcP : c < P := List.mem_range.mp hc
      show decide (c % P = 0) = decide (c < 1)
      rw [Nat.mod_eq_of_lt hcP, decide_eq_decide]
      omega
    rw [hcong, filter_range_lt P 1 hP]
    rfl
  rw [hinner]
  have hmap : ∀ q : Nat, ([0] : List Nat).map (q * P + ·) = [(fun x => x * P) q] := by
    intro q
    show [q * P + 0] = [q * P]
    rw [Nat.add_zero]
  have := List.flatMap_congr (fun q (_ : q ∈ List.range L) => hmap q)
  rw [this, flatMap_single]

theorem filter_marked (P L : Nat) (marked : List Int) (hP : 1 ≤ P) (hL : 2 ≤ L)
    (hlen : marked.length = P * L)
    (h0 : marked.getD 0 0 = 0)
    (hj : ∀ j, 1 ≤ j → j < P * L → ((marked.getD j 0 ≠ 0) ↔ j % P = 0)) :
    (List.range marked.length).filter (fun j => decide (marked.getD j 0 ≠ 0))
      = (List.range (L - 1)).map (fun k => (k + 1) * P) := by
  rw [hlen]
  have hcong : (List.range (P * L)).filter (fun j => decide (marked.getD j 0 ≠ 0))
      = (List.range (P * L)).filter (fun j => decide (0 < j) && decide (j % P = 0)) := by
    refine List.filter_congr (fun j hjr => ?_)
    have hjlt : j < P * L := List.mem_range.mp hjr
    rcases Nat.eq_zero_or_pos j with hz | hpos
    · subst hz
      show decide (marked.getD 0 0 ≠ 0) = (decide (0 < 0) && decide (0 % P = 0))
      rw [h0]
      simp
    · show decide (marked.getD j 0 ≠ 0) = (decide (0 < j) && decide (j % P = 0))
      rw [decide_eq_true hpos, Bool.true_and, decide_eq_decide]
      exact hj j hpos hjlt
  rw [hcong, ← List.filter_filter, filter_mod_range P L hP]
  obtain ⟨M, rfl⟩ : ∃ M, L = M + 1 := ⟨L - 1, by omega⟩
  rw [List.range_succ_eq_map, List.map_cons, List.filter_cons]
  have hhead : ¬ (0 < 0 * P) := by omega
  simp only [hhead, decide_eq_true_eq, if_neg, decide_eq_false_iff_not, not_lt,
    Nat.le_zero]
  rw [List.map_map, List.filter_eq_self.mpr (fun x hx => by
    rw [List.mem_map] at hx
    obtain ⟨k, hk, rfl⟩ := hx
    show decide (0 < ((fun x => x * P) ∘ Nat.succ) k) = true
    rw [decide_eq_true_eq]
    show 0 < (k + 1) * P
    have hx2 : (k + 1) * P = k * P + P := by ring
    omega)]
  refine List.map_congr_left (fun k _ => ?_)
  show ((fun x => x * P) ∘ Nat.succ) k = (k + 1) * P
  rfl

theorem tjp_gaps (P B Q : Nat) (hP : 1 ≤ P) (hB : P < B) :
    idxsGt1 ((1 : Nat) :: gapsPat P B Q)
      = (List.range (Q - 1)).map (fun q => (q + 1) * P) := by
  have h1 : idxsGt1 ((1 : Nat) :: gapsPat P B Q)
      = idxsGt1 [1] ++ (idxsGt1 (gapsPat P B Q)).map (1 + ·) := by
    have := idxsGt1_append [1] (gapsPat P B Q)
    simpa using this
  rw [h1, idxsGt1_all_le [1] (by intro x hx; simp at hx; omega)]
  have h2 : idxsGt1 (gapsPat P B Q)
      = (List.range (Q - 1)).map (fun q => q * P + (P - 1)) := by
    unfold gapsPat
    rw [idxsGt1_append, idxsGt1_flatten_chunks P (B - P + 1) (Q - 1) hP (by omega),
      idxsGt1_replicate_one]
    simp
  rw [h2, List.nil_append, List.map_map]
  refine List.map_congr_left (fun q _ => ?_)
  show 1 + (q * P + (P - 1)) = (q + 1) * P
  have : (q + 1) * P = q * P + P := by ring
  omega

theorem tileStarts_eq (P B Q : Nat) (hP : 1 ≤ P) (hQ : 1 ≤ Q) :
    (0 : Nat) :: (((List.range (Q - 1)).map (fun q => (q + 1) * P)).map
        (fun i => (cartStarts P B Q).getD i 0) ++ [Q * B])
      = (List.range (Q + 1)).map (· * B) := by
  obtain ⟨M, rfl⟩ : ∃ M, Q = M + 1 := ⟨Q - 1, by omega⟩
  rw [List.range_succ, List.map_append, List.range_succ_eq_map, List.map_cons,
    List.map_map, List.cons_append]
  have hsimp : M + 1 - 1 = M := rfl
  rw [hsimp, List.map_map]
  congr 1
  · omega
  congr 1
  refine List.map_congr_left (fun q hq => ?_)
  have hqM : q < M := List.mem_range.mp hq
  show (cartStarts P B (M + 1)).getD ((q + 1) * P) 0 = ((· * B) ∘ Nat.succ) q
  have hbound : (q + 1) * P < (M + 1) * P :=
    (Nat.mul_lt_mul_right (show 0 < P by omega)).mpr (by omega)
  rw [cartStarts_getD P B (M + 1) _ hP hbound, Nat.mul_div_cancel _ (by omega),
    Nat.mul_mod_left]
  show (q + 1) * B + 0 = (q + 1) * B
  omega

theorem flatten_replicate_rep {α : Type} (n m : Nat) (x : α) :
    (List.replicate n (List.replicate m x)).flatten = List.replicate (n * m) x := by
  induction n with
  | zero => simp
  | succ k ih =>
    rw [List.replicate_succ, List.flatten_cons, ih, ← List.replicate_add]
    congr 1
    ring

theorem max_replicate_zero (m : Nat) (h : 1 ≤ m) :
    (List.replicate m (0 : Int)).max? = some 0 := by
  obtain ⟨k, rfl⟩ : ∃ k, m = k + 1 := ⟨m - 1, by omega⟩
  induction k with
  | zero => rfl
  | succ j ih =>
    rw [List.replicate_succ, List.max?_cons, ih (by omega)]
    simp

theorem zipWith_sub_self (l : List Nat) :
    List.zipWith (fun (x y : Nat) => ((y : Int)) - ((x : Int))) l l
      = List.replicate l.length (0 : Int) := by
  induction l with
  | nil => rfl
  | cons a t ih =>
    rw [List.zipWith_cons_cons, ih, List.length_cons, List.replicate_succ]
    congr 1
    omega

theorem vals_map {α : Type} [Inhabited α] (P L Q : Nat) (ticks : List α)
    (hP : 1 ≤ P) (hQ : 1 ≤ Q) (ht : ticks.length = L) :
    ((List.range L).map (· * P)).map
        (fun j => (buildRowVals P ticks Q).getD j default) = ticks := by
  rw [List.map_map]
  have hcong : ∀ k ∈ List.range L,
      ((fun j => (buildRowVals P ticks Q).getD j default) ∘ (· * P)) k
        = ticks.getD k default := by
    intro k hk
    have hkL : k < L := List.mem_range.mp hk
    show (buildRowVals P ticks Q).getD (k * P) default = ticks.getD k default
    have hkP : k * P < P * L := by
      rw [Nat.mul_comm P L]
      exact (Nat.mul_lt_mul_right (show 0 < P by omega)).mpr hkL
    have hbound : k * P < Q * (P * ticks.length) := by
      rw [ht]
      calc k * P < P * L := hkP
      _ = 1 * (P * L) := by ring
      _ ≤ Q * (P * L) := Nat.mul_le_mul_right _ hQ
    rw [buildRowVals_getD P ticks Q _ hP hbound, ht,
      Nat.mod_eq_of_lt hkP, Nat.mul_div_cancel _ (by omega)]
  rw [List.map_congr_left hcong, map_getD_range_self ticks L ht]

theorem steps_cons (P L : Nat) (hL : 1 ≤ L) :
    (0 : Nat) :: (List.range (L - 1)).map (fun k => (k + 1) * P)
      = (List.range L).map (· * P) := by
  obtain ⟨M, rfl⟩ : ∃ M, L = M + 1 := ⟨L - 1, by omega⟩
  rw [List.range_succ_eq_map, List.map_cons, List.map_map]
  have h1 : M + 1 - 1 = M := rfl
  rw [h1]
  congr 1
  omega

theorem okSteps {α : Type} [Inhabited α] (P L Q : Nat) (ticks : List α) (marked : List Int)
    (hP : 1 ≤ P) (hL : 2 ≤ L) (hQ : 1 ≤ Q) (ht : ticks.length = L)
    (hmlen : marked.length = P * L) (hm0 : marked.getD 0 0 = 0)
    (hmj : ∀ j, 1 ≤ j → j < P * L → ((marked.getD j 0 ≠ 0) ↔ j % P = 0)) :
    (Except.ok (((0 : Nat) :: (List.range marked.length).filter
        (fun j => decide (marked.getD j 0 ≠ 0))).map
      (fun j => (buildRowVals P ticks Q).getD j default)) : Except String (List α))
      = Except.ok ticks := by
  rw [filter_marked P L marked hP hL hmlen hm0 hmj,
    steps_cons P L (by omega), vals_map P L Q ticks hP hQ ht]

theorem subsections_eq (P L Q : Nat) (ts : List Nat) (hP : 1 ≤ P)
    (hts : ∀ k, k ≤ Q → ts.getD k 0 = k * (P * L)) :
    (List.range Q).map (fun k => (((buildRowIdx P L Q).drop (ts.getD k 0)).take
        (ts.getD (k + 1) 0 - ts.getD k 0)))
      = List.replicate Q (repeatEach P (List.range L)) := by
  have hxs : (repeatEach P (List.range L)).length = P * L := by
    rw [repeatEach_length, List.length_range]
  have hcong : ∀ k ∈ List.range Q,
      ((buildRowIdx P L Q).drop (ts.getD k 0)).take (ts.getD (k + 1) 0 - ts.getD k 0)
        = repeatEach P (List.range L) := by
    intro k hk
    have hkQ : k < Q := List.mem_range.mp hk
    rw [hts k (by omega), hts (k + 1) (by omega)]
    have hdiff : (k + 1) * (P * L) - k * (P * L) = (repeatEach P (List.range L)).length := by
      rw [hxs]
      have hx : (k + 1) * (P * L) = k * (P * L) + P * L := by ring
      omega
    rw [hdiff]
    have hdrop : k * (P * L) = k * (repeatEach P (List.range L)).length := by rw [hxs]
    rw [hdrop]
    exact tileList_drop_take Q (repeatEach P (List.range L)) k hkQ
  rw [List.map_congr_left hcong, List.map_const', List.length_range]

theorem coeList_eq_map (m : List Nat) :
    ((m : List Int)) = m.map (fun (a : Nat) => (a : Int)) := by
  induction m with
  | nil => rfl
  | cons a t ih =>
    show (a : Int) :: ((t : List Int)) = _
    rw [ih]
    rfl

theorem zipWith_sub_self_cast (l : List Nat) :
    List.zipWith (fun (x y : Int) => y - x) (l.map (fun (a : Nat) => (a : Int)))
      (l.map (fun (a : Nat) => (a : Int))) = List.replicate l.length (0 : Int) := by
  induction l with
  | nil => rfl
  | cons a t ih =>
    rw [List.map_cons, List.zipWith_cons_cons, ih, List.length_cons, List.replicate_succ]
    congr 1
    omega

theorem unitValuesRow_build {α : Type} [Inhabited α] (P L Q : Nat) (ticks : List α)
    (hP : 1 ≤ P) (hL : 2 ≤ L) (hQ : 1 ≤ Q) (ht : ticks.length = L) :
    unitValuesRow (buildRowIdx P L Q) (buildRowVals P ticks Q) = .ok ticks := by
  have hPL2 : 2 ≤ P * L := by
    have hx := Nat.mul_le_mul hP hL
    omega
  have hxs : (repeatEach P (List.range L)).length = P * L := by
    rw [repeatEach_length, List.length_range]
  have hBP : P < P * L := by
    have hx := Nat.mul_le_mul_left P hL
    omega
  unfold unitValuesRow
  rw [buildRowIdx_min P L Q hP (by omega) hQ]
  dsimp only
  rw [starts_buildRowIdx P L Q hP (by omega) hQ]
  rw [diffsL_cartStarts P (P * L) Q hP (by omega) hQ]
  have hle := stepcheck_le_one (gapsPat P (P * L) Q) (P * L - P + 1)
    (fun x hx => gapsPat_mem P (P * L) Q x hx)
  have hnot : ¬ (((1 :: gapsPat P (P * L) Q).dedup.filter
      (fun x => decide (x ≠ 1))).length > 1) := by
    rw [length_filter_ne_dedup_cons1]
    omega
  rw [if_neg hnot]
  rw [show (List.range ((1 : Nat) :: gapsPat P (P * L) Q).length).filter
      (fun i => decide (((1 : Nat) :: gapsPat P (P * L) Q).getD i 0 > 1))
      = (List.range (Q - 1)).map (fun q => (q + 1) * P) from tjp_gaps P (P * L) Q hP hBP]
  rcases Nat.lt_or_ge Q 2 with hQ2 | hQ2
  · have hQ1 : Q = 1 := by omega
    subst hQ1
    rw [if_pos (show (List.range (1 - 1)).map (fun q => (q + 1) * P) = [] from rfl)]
    rw [except_bind_ok]
    dsimp only
    have h_sub : ((buildRowIdx P L 1).drop 0).take ((buildRowIdx P L 1).length - 0)
        = repeatEach P (List.range L) := by
      rw [List.drop_zero, buildRowIdx_length]
      have h2 : 1 * (P * L) - 0 = (repeatEach P (List.range L)).length := by
        rw [hxs]
        omega
      rw [h2]
      have h3 := tileList_drop_take 1 (repeatEach P (List.range L)) 0 (by omega)
      rw [Nat.zero_mul, List.drop_zero] at h3
      exact h3
    rw [h_sub]
    refine okSteps P L 1 ticks _ hP hL (by omega) ht ?_ ?_ ?_
    · rw [List.length_cons, dffs_length, hxs]
      omega
    · rfl
    · intro j hj1 hjP
      obtain ⟨i, rfl⟩ : ∃ i, j = i + 1 := ⟨j - 1, by omega⟩
      rw [List.getD_cons_succ]
      rw [dffs_getD (repeatEach P (List.range L)) i (by rw [hxs]; omega)]
      rw [sub_getD P L (i + 1) hP (by omega), sub_getD P L i hP (by omega)]
      rw [sub_ne_zero, ne_eq, Nat.cast_inj]
      have hdp := div_pred P (i + 1) hP (by omega)
      rw [Nat.add_sub_cancel] at hdp
      constructor
      · intro hne
        by_contra hmod
        exact hne ((hdp.mpr hmod).symm)
      · intro hmod heq
        exact (hdp.mp heq.symm) hmod
  · have hne : ¬ ((List.range (Q - 1)).map (fun q => (q + 1) * P) = []) := by
      intro hc
      have hlc := congrArg List.length hc
      simp at hlc
      omega
    rw [if_neg hne]
    rw [buildRowIdx_length]
    rw [tileStarts_eq P (P * L) Q hP hQ]
    rw [show ((List.range (Q + 1)).map (· * (P * L))).length = Q + 1 from by simp]
    rw [show Q + 1 - 1 = Q from rfl]
    rw [subsections_eq P L Q ((List.range (Q + 1)).map (· * (P * L))) hP
      (fun k hk => by rw [getD_map_range (· * (P * L)) (Q + 1) k 0 (by omega)])]
    have hall : ∀ t ∈ List.replicate Q (repeatEach P (List.range L)),
        t.length = ((List.replicate Q (repeatEach P (List.range L))).headD []).length := by
      intro t htm
      rw [List.eq_of_mem_replicate htm]
      have hh : (List.replicate Q (repeatEach P (List.range L))).headD []
          = repeatEach P (List.range L) := by
        rw [show Q = (Q - 1) + 1 from by omega, List.replicate_succ]
        rfl
      rw [hh]
    rw [if_neg (not_not_intro hall)]
    have hscrut : (((List.replicate Q (repeatEach P (List.range L))).zip
        (List.replicate Q (repeatEach P (List.range L))).tail).map
        (fun pr => List.zipWith (fun x y => (y : Int) - (x : Int)) pr.1 pr.2)).flatten.max?
        = some 0 := by
      rw [List.tail_replicate, List.zip_replicate, Nat.min_eq_right (by omega),
        List.map_replicate]
      dsimp only
      rw [coeList_eq_map, zipWith_sub_self_cast, hxs, flatten_replicate_rep]
      exact max_replicate_zero _ (Nat.mul_pos (by omega) (by omega))
    rw [hscrut]
    dsimp only
    rw [if_neg (show ¬ ((0 : Int) ≠ 0) from by omega)]
    rw [show ((List.range (Q + 1)).map (· * (P * L))).getD 0 0 = 0 from by
      rw [getD_map_range (· * (P * L)) (Q + 1) 0 0 (by omega)]
      show 0 * (P * L) = 0
      omega]
    rw [show ((List.range (Q + 1)).map (· * (P * L))).getD 1 0 = P * L from by
      rw [getD_map_range (· * (P * L)) (Q + 1) 1 0 (by omega)]
      show 1 * (P * L) = P * L
      omega]
    rw [except_bind_ok]
    dsimp only
    have h_sub2 : ((buildRowIdx P L Q).drop 0).take (P * L - 0)
        = repeatEach P (List.range L) := by
      rw [List.drop_zero]
      have h2 : P * L - 0 = (repeatEach P (List.range L)).length := by
        rw [hxs]
        omega
      rw [h2]
      have h3 := tileList_drop_take Q (repeatEach P (List.range L)) 0 (by omega)
      rw [Nat.zero_mul, List.drop_zero] at h3
      exact h3
    rw [h_sub2]
    refine okSteps P L Q ticks _ hP hL hQ ht ?_ ?_ ?_
    · rw [List.length_cons, dffs_length, hxs]
      omega
    · rfl
    · intro j hj1 hjP
      obtain ⟨i, rfl⟩ : ∃ i, j = i + 1 := ⟨j - 1, by omega⟩
      rw [List.getD_cons_succ]
      rw [dffs_getD (repeatEach P (List.range L)) i (by rw [hxs]; omega)]
      rw [sub_getD P L (i + 1) hP (by omega), sub_getD P L i hP (by omega)]
      rw [sub_ne_zero, ne_eq, Nat.cast_inj]
      have hdp := div_pred P (i + 1) hP (by omega)
      rw [Nat.add_sub_cancel] at hdp
      constructor
      · intro hne
        by_contra hmod
        exact hne ((hdp.mpr hmod).symm)
      · intro hmod heq
        exact (hdp.mp heq.symm) hmod

/-- Modelled from the spec: `build_ind_val_matrices` lives in `write_utils.py`
(not under src/).  Per spec section 4.1 it builds the index and the value
matrix of shape `[k, prod sizes]` by the same Cartesian tiling (dimension 0
cycling fastest), here in spectroscopic orientation. -/
def build_ind_val_matrices {α : Type} (tickLists : List (List α)) :
    Except String (Mat × List (List α)) :=
  let dims := tickLists.map List.length
  (make_indices_matrix dims false).bind fun inds =>
    .ok (inds, (List.range dims.length).map
      (fun i => buildRowVals (prodBefore dims i) (tickLists.getD i []) (prodAfter dims i)))

theorem guvLoop_map {α : Type} [Inhabited α] (inds_mat : Mat) (vals_mat : List (List α))
    (allNames : List String) (todo : List String) (F : String → List α)
    (h : ∀ name ∈ todo, unitValuesRow (inds_mat.getD (allNames.indexOf name) [])
      (vals_mat.getD (allNames.indexOf name) []) = .ok (F name)) :
    guvLoop inds_mat vals_mat allNames todo = .ok (todo.map (fun n => (n, F n))) := by
  induction todo with
  | nil => rfl
  | cons a rest ih =>
    show (unitValuesRow (inds_mat.getD (allNames.indexOf a) [])
        (vals_mat.getD (allNames.indexOf a) [])).bind _ = _
    rw [h a (by simp), except_bind_ok, ih (fun n hn => h n (by simp [hn])),
      except_bind_ok]
    rfl

theorem map_indexOf_zip {α : Type} (names : List String) (tickLists : List (List α))
    (hnd : names.Nodup) (hlen : names.length = tickLists.length) :
    names.map (fun n => (n, tickLists.getD (names.indexOf n) []))
      = names.zip tickLists := by
  refine List.ext_getElem ?_ (fun i h1 h2 => ?_)
  · rw [List.length_map, List.length_zip]
    omega
  · rw [List.getElem_map, List.getElem_zip]
    have hi : i < names.length := by
      rw [List.length_map] at h1
      exact h1
    have hidx : names.indexOf names[i] = i := List.indexOf_getElem hnd i hi
    rw [hidx, List.getD_eq_getElem tickLists [] (by omega)]

theorem headD_map_range {β : Type} (f : Nat → β) (m : Nat) (d : β) (hm : 1 ≤ m) :
    ((List.range m).map f).headD d = f 0 := by
  obtain ⟨M, rfl⟩ : ∃ M, m = M + 1 := ⟨m - 1, by omega⟩
  rw [List.range_succ_eq_map]
  rfl

theorem row_prod (dims : List Nat) (h : dims ≠ []) :
    prodAfter dims 0 * (prodBefore dims 0 * dims.getD 0 0) = dims.prod := by
  rcases dims with _ | ⟨d, rest⟩
  · exact absurd rfl h
  · show rest.prod * (1 * d) = (d :: rest).prod
    rw [List.prod_cons]
    ring

theorem prod_ge_two_pow (l : List Nat) (h : ∀ x ∈ l, 2 ≤ x) :
    2 ^ l.length ≤ l.prod := by
  induction l with
  | nil => simp
  | cons a t ih =>
    rw [List.length_cons, List.prod_cons, Nat.pow_succ, Nat.mul_comm (2 ^ t.length) 2]
    exact Nat.mul_le_mul (h a (by simp)) (ih (fun x hx => h x (by simp [hx])))

theorem dims_getD_len {α : Type} (tickLists : List (List α)) (i : Nat)
    (hi : i < tickLists.length) :
    (tickLists.map List.length).getD i 0 = (tickLists.getD i []).length := by
  rw [List.getD_eq_getElem _ 0 (by simpa using hi), List.getElem_map,
    List.getD_eq_getElem _ [] hi]

theorem getD_mem {α : Type} (l : List α) (i : Nat) (d : α) (hi : i < l.length) :
    l.getD i d ∈ l := by
  rw [List.getD_eq_getElem _ d hi]
  exact List.getElem_mem hi

theorem prod_pos_nat (l : List Nat) (h : ∀ x ∈ l, 0 < x) : 0 < l.prod := by
  induction l with
  | nil => simp
  | cons a t ih =>
    rw [List.prod_cons]
    exact Nat.mul_pos (h a (by simp)) (ih (fun x hx => h x (by simp [hx])))

theorem prodBefore_pos {α : Type} (tickLists : List (List α)) (i : Nat)
    (hsz : ∀ t ∈ tickLists, 2 ≤ t.length) :
    1 ≤ prodBefore (tickLists.map List.length) i := by
  refine prod_pos_nat _ (fun x hx => ?_)
  have hx2 := List.mem_of_mem_take hx
  rw [List.mem_map] at hx2
  obtain ⟨t, htm, rfl⟩ := hx2
  have := hsz t htm
  omega

theorem prodAfter_pos {α : Type} (tickLists : List (List α)) (i : Nat)
    (hsz : ∀ t ∈ tickLists, 2 ≤ t.length) :
    1 ≤ prodAfter (tickLists.map List.length) i := by
  refine prod_pos_nat _ (fun x hx => ?_)
  have hx2 := List.mem_of_mem_drop hx
  rw [List.mem_map] at hx2
  obtain ⟨t, htm, rfl⟩ := hx2
  have := hsz t htm
  omega

/-- C5: for 2-to-5 dimensions, each with 2-to-5 tick values, building the
index/value matrices by Cartesian tiling (`build_ind_val_matrices`, modelled
from the spec since `write_utils.py` is not under src/) and then extracting
with `get_unit_values` returns every dimension's original ordered tick-value
sequence. -/
theorem c5_build_extract_roundtrip {α : Type} [Inhabited α]
    (names : List String) (tickLists : List (List α))
    (hnd : names.Nodup) (hlen : names.length = tickLists.length)
    (hk2 : 2 ≤ names.length) (hk5 : names.length ≤ 5)
    (hsz : ∀ t ∈ tickLists, 2 ≤ t.length ∧ t.length ≤ 5) :
    ∃ inds vals, build_ind_val_matrices tickLists = .ok (inds, vals) ∧
      get_unit_values inds vals names none = .ok (names.zip tickLists) := by
  have hsz2 : ∀ t ∈ tickLists, 2 ≤ t.length := fun t ht => (hsz t ht).1
  have hkt : 2 ≤ tickLists.length := by omega
  have hdlen : (tickLists.map List.length).length = tickLists.length :=
    List.length_map tickLists List.length
  have hval : ¬ ((tickLists.map List.length) = [] ∨
      (tickLists.map List.length).any (· = 0) = true ∨
      ((tickLists.map List.length).any (· = 1) = true ∧
        (tickLists.map List.length) ≠ [1])) := by
    intro hc
    rcases hc with hc | hc | hc
    · have hlc := congrArg List.length hc
      rw [hdlen, List.length_nil] at hlc
      omega
    · rw [List.any_eq_true] at hc
      obtain ⟨x, hxm, hx0⟩ := hc
      rw [List.mem_map] at hxm
      obtain ⟨t, htm, rfl⟩ := hxm
      have := hsz2 t htm
      rw [decide_eq_true_eq] at hx0
      omega
    · obtain ⟨hc1, _⟩ := hc
      rw [List.any_eq_true] at hc1
      obtain ⟨x, hxm, hx1⟩ := hc1
      rw [List.mem_map] at hxm
      obtain ⟨t, htm, rfl⟩ := hxm
      have := hsz2 t htm
      rw [decide_eq_true_eq] at hx1
      omega
  refine ⟨(List.range (tickLists.map List.length).length).map
      (fun i => buildRowIdx (prodBefore (tickLists.map List.length) i)
        ((tickLists.map List.length).getD i 0) (prodAfter (tickLists.map List.length) i)),
    (List.range (tickLists.map List.length).length).map
      (fun i => buildRowVals (prodBefore (tickLists.map List.length) i)
        (tickLists.getD i []) (prodAfter (tickLists.map List.length) i)), ?_, ?_⟩
  · unfold build_ind_val_matrices make_indices_matrix
    dsimp only
    rw [if_neg hval, except_bind_ok]
    simp only [Bool.false_eq_true, if_false]
  · have hnM : nrows ((List.range (tickLists.map List.length).length).map
        (fun i => buildRowIdx (prodBefore (tickLists.map List.length) i)
          ((tickLists.map List.length).getD i 0)
          (prodAfter (tickLists.map List.length) i))) = tickLists.length := by
      show (_ : List (List Nat)).length = _
      rw [List.length_map, List.length_range, hdlen]
    have hnV : nrows ((List.range (tickLists.map List.length).length).map
        (fun i => buildRowVals (prodBefore (tickLists.map List.length) i)
          (tickLists.getD i []) (prodAfter (tickLists.map List.length) i)))
        = tickLists.length := by
      show (_ : List (List α)).length = _
      rw [List.length_map, List.length_range, hdlen]
    have hone : 1 ≤ (tickLists.map List.length).length := by omega
    have hcM : ncols ((List.range (tickLists.map List.length).length).map
        (fun i => buildRowIdx (prodBefore (tickLists.map List.length) i)
          ((tickLists.map List.length).getD i 0)
          (prodAfter (tickLists.map List.length) i)))
        = prodAfter (tickLists.map List.length) 0 *
          (prodBefore (tickLists.map List.length) 0 *
            (tickLists.map List.length).getD 0 0) := by
      show ((_ : List (List Nat)).headD []).length = _
      rw [headD_map_range _ _ [] hone]
      exact buildRowIdx_length _ _ _
    have hcV : ncols ((List.range (tickLists.map List.length).length).map
        (fun i => buildRowVals (prodBefore (tickLists.map List.length) i)
          (tickLists.getD i []) (prodAfter (tickLists.map List.length) i)))
        = prodAfter (tickLists.map List.length) 0 *
          (prodBefore (tickLists.map List.length) 0 *
            (tickLists.getD 0 []).length) := by
      show ((_ : List (List α)).headD []).length = _
      rw [headD_map_range _ _ [] hone]
      exact buildRowVals_length _ _ _
    have hcolseq := hcM.trans ((congrArg _ (congrArg _
      (dims_getD_len tickLists 0 (by omega)))).trans hcV.symm)
    have hshape := And.intro (hnM.trans hnV.symm) hcolseq
    have hDne : (tickLists.map List.length) ≠ [] := by
      intro hc
      have hlc := congrArg List.length hc
      rw [hdlen, List.length_nil] at hlc
      omega
    have hlt : nrows ((List.range (tickLists.map List.length).length).map
        (fun i => buildRowIdx (prodBefore (tickLists.map List.length) i)
          ((tickLists.map List.length).getD i 0)
          (prodAfter (tickLists.map List.length) i)))
        < ncols ((List.range (tickLists.map List.length).length).map
        (fun i => buildRowIdx (prodBefore (tickLists.map List.length) i)
          ((tickLists.map List.length).getD i 0)
          (prodAfter (tickLists.map List.length) i))) := by
      have h2 := row_prod (tickLists.map List.length) hDne
      have h3 := prod_ge_two_pow (tickLists.map List.length) (fun x hx => by
        rw [List.mem_map] at hx
        obtain ⟨t, htm, rfl⟩ := hx
        exact hsz2 t htm)
      have h4 : (tickLists.map List.length).length
          < 2 ^ (tickLists.map List.length).length := Nat.lt_two_pow _
      rw [hnM, hcM, h2]
      rw [hdlen] at h3 h4
      omega
    have hrows : ∀ name ∈ names,
        unitValuesRow (((List.range (tickLists.map List.length).length).map
            (fun i => buildRowIdx (prodBefore (tickLists.map List.length) i)
              ((tickLists.map List.length).getD i 0)
              (prodAfter (tickLists.map List.length) i))).getD (names.indexOf name) [])
          (((List.range (tickLists.map List.length).length).map
            (fun i => buildRowVals (prodBefore (tickLists.map List.length) i)
              (tickLists.getD i []) (prodAfter (tickLists.map List.length) i))).getD
            (names.indexOf name) [])
          = .ok (tickLists.getD (names.indexOf name) []) := by
      intro name hn
      have hi : names.indexOf name < names.length := List.indexOf_lt_length.mpr hn
      have hiD : names.indexOf name < (tickLists.map List.length).length := by
        rw [hdlen]
        omega
      rw [getD_map_range _ _ _ [] hiD, getD_map_range _ _ _ [] hiD]
      have hdg := dims_getD_len tickLists (names.indexOf name) (by omega)
      have hL2 : 2 ≤ (tickLists.map List.length).getD (names.indexOf name) 0 := by
        rw [hdg]
        exact hsz2 _ (getD_mem tickLists _ [] (by omega))
      exact unitValuesRow_build _ _ _ _
        (prodBefore_pos tickLists _ hsz2) hL2
        (prodAfter_pos tickLists _ hsz2) hdg.symm
    unfold get_unit_values
    rw [if_neg (not_not_intro hshape)]
    dsimp only
    rw [except_bind_ok]
    have hif : ∀ (γ : Type) (a b : γ),
        (if (decide (nrows ((List.range (tickLists.map List.length).length).map
          (fun i => buildRowIdx (prodBefore (tickLists.map List.length) i)
            ((tickLists.map List.length).getD i 0)
            (prodAfter (tickLists.map List.length) i)))
          < ncols ((List.range (tickLists.map List.length).length).map
          (fun i => buildRowIdx (prodBefore (tickLists.map List.length) i)
            ((tickLists.map List.length).getD i 0)
            (prodAfter (tickLists.map List.length) i))))) = true then a else b) = a :=
      fun γ a b => if_pos (decide_eq_true hlt)
    rw [hif, hif]
    have hleneq : names.length = ((List.range (tickLists.map List.length).length).map
        (fun i => buildRowIdx (prodBefore (tickLists.map List.length) i)
          ((tickLists.map List.length).getD i 0)
          (prodAfter (tickLists.map List.length) i))).length := by
      rw [List.length_map, List.length_range, hdlen]
      omega
    rw [if_neg (not_not_intro hleneq)]
    rw [guvLoop_map _ _ names names
      (fun n => tickLists.getD (names.indexOf n) []) hrows]
    rw [map_indexOf_zip names tickLists hnd hlen]

example :
    build_ind_val_matrices ([[3, 7], [1, 4, 9]] : List (List Nat))
      = .ok ([[0, 1, 0, 1, 0, 1], [0, 0, 1, 1, 2, 2]],
             [[3, 7, 3, 7, 3, 7], [1, 1, 4, 4, 9, 9]]) := by decide

example :
    get_unit_values [[0, 1, 0, 1, 0, 1], [0, 0, 1, 1, 2, 2]]
      ([[3, 7, 3, 7, 3, 7], [1, 1, 4, 4, 9, 9]] : List (List Nat)) ["X", "Y"] none
      = .ok [("X", [3, 7]), ("Y", [1, 4, 9])] := by decide

theorem c5_witness :
    ((["X", "Y"] : List String).Nodup ∧
      (["X", "Y"] : List String).length = ([[3, 7], [1, 4, 9]] : List (List Nat)).length ∧
      2 ≤ (["X", "Y"] : List String).length ∧ (["X", "Y"] : List String).length ≤ 5 ∧
      (∀ t ∈ ([[3, 7], [1, 4, 9]] : List (List Nat)), 2 ≤ t.length ∧ t.length ≤ 5)) ∧
    ∃ inds vals, build_ind_val_matrices ([[3, 7], [1, 4, 9]] : List (List Nat))
        = .ok (inds, vals) ∧
      get_unit_values inds vals ["X", "Y"] none
        = .ok ((["X", "Y"] : List String).zip [[3, 7], [1, 4, 9]]) :=
  ⟨⟨by decide, by decide, by decide, by decide, by decide⟩,
    c5_build_extract_roundtrip ["X", "Y"] [[3, 7], [1, 4, 9]]
      (by decide) (by decide) (by decide) (by decide) (by decide)⟩
